import Mathlib

/-!
Verification of the workbook cell patcher (`excel_date_updater.py`).

The development is a shallow embedding of the script into Lean:

* XML element trees (`xml.etree.ElementTree.Element`) become the inductive
  type `Xml`; element attributes are association lists with Python-dict
  update semantics.
* Zip archive members become an association list from member name to a
  `Member`, where a member is either a (well-formed) XML document,
  represented by its parsed tree, or opaque bytes.  `ET.fromstring`
  succeeds exactly on the XML members, and `ET.tostring` is injective on
  trees, so equality of `Member` values models byte equality of the
  serialized members.
* Python `int(...)` / `str(...)` on integers are modeled by `parseInt?` /
  `intToStr` (decimal with optional sign and surrounding whitespace;
  exotic forms such as underscores or non-ASCII digits are not modeled).
* Exceptions become `Except String`; the message strings are abridged.
* `str.strip` is modeled by ASCII/Unicode whitespace trimming on the
  character list, `str.lower`/`str.upper` by `Char.toLower`/`Char.toUpper`
  (the header texts of interest are ASCII).
* Python's stable `sorted` is modeled by `List.insertionSort` (stable
  sorts with the same key agree).
* The filesystem effects of `main` are modeled by the `Files` record
  (content at the workbook path, at the explicit output path, and at the
  `.bak` path); `shutil.copy2`, `shutil.move` and `os.remove` become
  field updates.
-/

namespace ExcelDateUpdater

/-! ## Definitions: toolkit, numerals, XML model, and the embedding of
every function of `excel_date_updater.py` -/

/-- First-match lookup in an association list (Python `dict.get` once keys
are unique; also the order in which `dict` retains the first key). -/
def alookup {α : Type} : List (String × α) → String → Option α
  | [], _ => none
  | (k', v) :: rest, k => if k' = k then some v else alookup rest k

/-- Python `dict` assignment `m[k] = v`: replace the value at an existing
key in place, otherwise append the new binding. -/
def dictInsert {α : Type} : List (String × α) → String → α → List (String × α)
  | [], k, v => [(k, v)]
  | (k', v') :: rest, k, v =>
    if k' = k then (k', v) :: rest else (k', v') :: dictInsert rest k v

/-- Python `dict.pop(k, None)`: remove the binding for `k` (first match)
and return its value, if any. -/
def dictPop {α : Type} : List (String × α) → String → Option α × List (String × α)
  | [], _ => (none, [])
  | (k', v') :: rest, k =>
    if k' = k then (some v', rest)
    else
      let r := dictPop rest k
      (r.1, (k', v') :: r.2)

/-- Index of the first element satisfying `p` (`ElementTree.find` position). -/
def firstIdx {α : Type} (p : α → Bool) : List α → Option Nat
  | [] => none
  | a :: rest => if p a then some 0 else (firstIdx p rest).map (· + 1)

/-- Turn an `Option` into an `Except`, raising `msg` on `none` (models the
various `KeyError` / `TypeError` / `ValueError` sites). -/
def getOrErr {α : Type} : Option α → String → Except String α
  | some a, _ => .ok a
  | none, msg => .error msg

/-- One decimal digit to its character (code point 48 + d). -/
def digitToChar (d : Nat) : Char := Char.ofNat (48 + d)

/-- A character back to its decimal digit value, if it is one. -/
def digitVal? (c : Char) : Option Nat :=
  if '0' ≤ c ∧ c ≤ '9' then some (c.toNat - 48) else none

/-- Least-significant-first decimal digits of `n`; `fuel ≥ n` suffices. -/
def natDigitsRev : Nat → Nat → List Nat
  | 0, _ => []
  | f + 1, n => if n = 0 then [] else n % 10 :: natDigitsRev f (n / 10)

/-- Model of Python `str` on a natural number: standard decimal numeral. -/
def natToStr (n : Nat) : String :=
  if n = 0 then "0" else String.mk (((natDigitsRev n n).reverse).map digitToChar)

/-- Model of Python `str` on an integer. -/
def intToStr : Int → String
  | .ofNat n => natToStr n
  | .negSucc n => "-" ++ natToStr (n + 1)

def isWsChar (c : Char) : Bool := c.isWhitespace

/-- Python `str.strip()` on a character list. -/
def stripChars (cs : List Char) : List Char :=
  ((((cs.dropWhile isWsChar).reverse).dropWhile isWsChar)).reverse

/-- Decimal value of a most-significant-first digit-character list
(the core of Python `int`). -/
def parseNatChars (cs : List Char) : Option Nat :=
  if cs.isEmpty then none
  else
    match cs.mapM digitVal? with
    | none => none
    | some ds => some (ds.foldl (fun a d => a * 10 + d) 0)

/-- Sign handling of Python `int(...)` after stripping. -/
def parseIntChars (cs : List Char) : Option Int :=
  match cs with
  | [] => none
  | c :: rest =>
    if c = '-' then (parseNatChars rest).map (fun n => -(n : Int))
    else if c = '+' then (parseNatChars rest).map (fun n => (n : Int))
    else (parseNatChars cs).map (fun n => (n : Int))

/-- Model of Python `int(...)` on a string: optional surrounding whitespace,
optional sign, decimal digits.  (Underscore separators and non-ASCII digits
are not modeled.) -/
def parseInt? (s : String) : Option Int :=
  parseIntChars (stripChars s.data)

/-- Decoding the digit list most-significant-first. -/
def decodeRevDigits : List Nat → Nat
  | [] => 0
  | d :: rest => d + 10 * decodeRevDigits rest

/-- An XML element: tag, attributes (a Python dict), child elements, and
leading text.  (`tail` text is irrelevant to the patcher and not modeled.) -/
inductive Xml where
  | elem (tag : String) (attrs : List (String × String)) (children : List Xml) (text : Option String)

def Xml.tag : Xml → String
  | .elem t _ _ _ => t

def Xml.attrs : Xml → List (String × String)
  | .elem _ a _ _ => a

def Xml.children : Xml → List Xml
  | .elem _ _ c _ => c

def Xml.text : Xml → Option String
  | .elem _ _ _ t => t

/-- `element.attrib.get(k)`. -/
def Xml.attr (x : Xml) (k : String) : Option String := alookup x.attrs k

/-- `element.attrib[k] = v`. -/
def Xml.attrSet (x : Xml) (k v : String) : Xml :=
  .elem x.tag (dictInsert x.attrs k v) x.children x.text

/-- `element.attrib.pop(k, None)` (keeping only the dict). -/
def Xml.attrPop (x : Xml) (k : String) : Xml :=
  .elem x.tag ((dictPop x.attrs k).2) x.children x.text

/-- Replace the whole child list (`element[:] = ...` or mutation of children). -/
def Xml.withChildren (x : Xml) (cs : List Xml) : Xml :=
  .elem x.tag x.attrs cs x.text

/-- Replace the text (`element.text = ...`). -/
def Xml.withText (x : Xml) (t : Option String) : Xml :=
  .elem x.tag x.attrs x.children t

/-- `element.find("tag")`: first child with the given tag. -/
def Xml.find (x : Xml) (t : String) : Option Xml :=
  x.children.find? (fun c => c.tag == t)

/-- `element.findall("tag")`: all children with the given tag, in order. -/
def Xml.findall (x : Xml) (t : String) : List Xml :=
  x.children.filter (fun c => c.tag == t)

/-- `element.find("a/b")`: first `b` child of an `a` child, document order. -/
def Xml.findPath2 (x : Xml) (a b : String) : Option Xml :=
  ((x.findall a).flatMap (fun y => y.findall b)).head?

/-- A zip-archive member: a well-formed XML document (represented by its
parsed tree, since `ET.tostring` is injective) or opaque bytes. -/
inductive Member where
  | xml (x : Xml)
  | raw (s : String)

/-- `ET.fromstring`: succeeds exactly on well-formed XML members. -/
def fromstring : Member → Except String Xml
  | .xml x => .ok x
  | .raw _ => .error "ParseError: not well-formed"

/-- `serialize_xml` (lines 282-285): serialization is injective, so the
member is the tree itself. -/
def serialize_xml (x : Xml) : Member := .xml x

/-- A zip archive: named members in file order
(`zipfile.ZipFile.infolist`). -/
abbrev Archive : Type := List (String × Member)

/-- `zf.read(name)`: `zipfile` resolves a name through `NameToInfo`, which
keeps the last entry for duplicated names; `KeyError` when absent. -/
def zfLookup (zf : Archive) (name : String) : Option Member :=
  alookup (List.reverse zf) name

def zfRead (zf : Archive) (name : String) : Except String Member :=
  getOrErr (zfLookup zf name) "KeyError"

def SPREADSHEET_NS : String := "http://schemas.openxmlformats.org/spreadsheetml/2006/main"

def REL_NS : String := "http://schemas.openxmlformats.org/officeDocument/2006/relationships"

/-- `f"{{{SPREADSHEET_NS}}}tag"`. -/
def mainTag (t : String) : String := "\x7b" ++ SPREADSHEET_NS ++ "\x7d" ++ t

def relTag (t : String) : String := "\x7b" ++ REL_NS ++ "\x7d" ++ t

def HEADER_ROW_INDEX : Nat := 1

def STYLES_PATH : String := "xl/styles.xml"

def TARGET_NUMBER_FORMAT : String := "ddmmyyyy hhmm AM/PM"

def isLeapYear (y : Nat) : Bool := y % 4 == 0 && (y % 100 != 0 || y % 400 == 0)

/-- CPython `_DAYS_BEFORE_MONTH` plus the leap adjustment. -/
def daysBeforeMonth (y m : Nat) : Nat :=
  (match m with
   | 1 => 0 | 2 => 31 | 3 => 59 | 4 => 90 | 5 => 120 | 6 => 151
   | 7 => 181 | 8 => 212 | 9 => 243 | 10 => 273 | 11 => 304 | 12 => 334
   | _ => 365) + (if 2 < m && isLeapYear y then 1 else 0)

def daysBeforeYear (y : Nat) : Nat :=
  let p := y - 1
  365 * p + p / 4 - p / 100 + p / 400

/-- CPython `date.toordinal()`. -/
def toOrdinal (y m d : Nat) : Nat := daysBeforeYear y + daysBeforeMonth y m + d

/-- `excel_serial` (lines 71-74): `(day - date(1899, 12, 30)).days`. -/
def excel_serial (y m d : Nat) : Int :=
  (toOrdinal y m d : Int) - (toOrdinal 1899 12 30 : Int)

def exMapM {α β : Type} (f : α → Except String β) : List α → Except String (List β)
  | [] => .ok []
  | a :: rest =>
    match f a with
    | .error e => .error e
    | .ok b =>
      match exMapM f rest with
      | .error e => .error e
      | .ok bs => .ok (b :: bs)

/-- All elements matching tag `t` in the subtree rooted at `x`, itself
included, in document order (the recursion behind `.//main:t`). -/
def collectMatches (t : String) : Xml → List Xml
  | .elem tg a cs tx =>
    (if tg == t then [Xml.elem tg a cs tx] else []) ++
      cs.attach.flatMap (fun c => collectMatches t c.1)
termination_by x => sizeOf x
decreasing_by
  simp_wf
  have := List.sizeOf_lt_of_mem c.2
  omega

/-- `si.findall(".//main:t", NS)`: descendant search, document order. -/
def descendantsTag (x : Xml) (t : String) : List Xml :=
  x.children.attach.flatMap (fun c => collectMatches t c.1)

def load_shared_strings (zf : Archive) : Except String (List String) :=
  match zfLookup zf "xl/sharedStrings.xml" with
  | none => .ok []
  | some raw =>
    match fromstring raw with
    | .error e => .error e
    | .ok tree =>
      .ok ((tree.findall (mainTag "si")).map (fun si =>
        String.join ((descendantsTag si (mainTag "t")).map (fun node => node.text.getD ""))))

def load_styles (zf : Archive) : Except String Xml :=
  match zfLookup zf STYLES_PATH with
  | none => .error "Workbook is missing xl/styles.xml, cannot set formats"
  | some raw => fromstring raw

def emptyNumFmts : Xml := Xml.elem (mainTag "numFmts") [("count", "0")] [] none

/-- Body of `ensure_num_fmt_id` once the `numFmts` container sits at child
index `i` of `root₁` (the root after `_ensure_num_fmts`). -/
def numFmtCore (root₁ : Xml) (i : Nat) (nf : Xml) (code : String) : Except String (Int × Xml) :=
  let fmts := nf.findall (mainTag "numFmt")
  match fmts.find? (fun f => f.attr "formatCode" == some code) with
  | some f =>
    match f.attr "numFmtId" with
    | none => .error "KeyError: numFmtId"
    | some idStr =>
      match parseInt? idStr with
      | none => .error "ValueError: invalid literal for int"
      | some fid => .ok (fid, root₁)
  | none =>
    match exMapM (fun f => getOrErr (parseInt? ((f.attr "numFmtId").getD "0"))
        "ValueError: invalid literal for int") fmts with
    | .error e => .error e
    | .ok ids =>
      let maxExisting := ids.foldl max (163 : Int)
      let newId := maxExisting + 1
      let newFmt := Xml.elem (mainTag "numFmt")
        [("numFmtId", intToStr newId), ("formatCode", code)] [] none
      let nf₁ := nf.withChildren (nf.children ++ [newFmt])
      let cnt := (nf₁.findall (mainTag "numFmt")).length
      let nf₂ := nf₁.attrSet "count" (natToStr cnt)
      .ok (newId, root₁.withChildren (root₁.children.set i nf₂))

def ensure_num_fmt_id (root : Xml) (code : String) : Except String (Int × Xml) :=
  match firstIdx (fun c => c.tag == mainTag "numFmts") root.children with
  | some i => numFmtCore root i ((root.children.get? i).getD emptyNumFmts) code
  | none => numFmtCore (root.withChildren (emptyNumFmts :: root.children)) 0 emptyNumFmts code

def defaultXfAttrs : List (String × String) :=
  [("numFmtId", "0"), ("fontId", "0"), ("fillId", "0"), ("borderId", "0"), ("xfId", "0")]

/-- The reuse test of `ensure_cell_xf_index` (line 131): same numeric
format id, "apply number format" flag set. -/
def xfPred (numFmtId : Int) (xf : Xml) : Bool :=
  xf.attr "numFmtId" == some (intToStr numFmtId) &&
    xf.attr "applyNumberFormat" == some "1"

def ensure_cell_xf_index (root : Xml) (numFmtId : Int) : Except String (Nat × Xml) :=
  match firstIdx (fun c => c.tag == mainTag "cellXfs") root.children with
  | none => .error "Workbook styles missing cellXfs, cannot define formats"
  | some j =>
    let cx := (root.children.get? j).getD (Xml.elem (mainTag "cellXfs") [] [] none)
    let xfs := cx.findall (mainTag "xf")
    match firstIdx (xfPred numFmtId) xfs with
    | some idx => .ok (idx, root)
    | none =>
      let baseAttrs :=
        match xfs.head? with
        | some x0 => x0.attrs
        | none => defaultXfAttrs
      let attrs₁ := dictInsert (dictInsert baseAttrs "numFmtId" (intToStr numFmtId))
        "applyNumberFormat" "1"
      let newXf := Xml.elem (mainTag "xf") attrs₁ [] none
      let cx₁ := cx.withChildren (cx.children ++ [newXf])
      let n := (cx₁.findall (mainTag "xf")).length
      let cx₂ := cx₁.attrSet "count" (natToStr n)
      .ok (n - 1, root.withChildren (root.children.set j cx₂))

def ensure_date_style_index (root : Xml) : Except String (Nat × Xml) :=
  match ensure_num_fmt_id root TARGET_NUMBER_FORMAT with
  | .error e => .error e
  | .ok (fid, r1) => ensure_cell_xf_index r1 fid

def dropSlashes (s : String) : String :=
  String.mk (s.data.dropWhile (fun c => c == '/'))

/-- `str.startswith` on the character lists. -/
def strStarts (s p : String) : Bool := p.data.isPrefixOf s.data

def resolve_sheet_path (zf : Archive) (sheetName : String) : Except String String :=
  match zfRead zf "xl/workbook.xml" with
  | .error e => .error e
  | .ok wbRaw =>
    match fromstring wbRaw with
    | .error e => .error e
    | .ok workbook =>
      let sheetElems := (workbook.findall (mainTag "sheets")).flatMap
        (fun s => s.findall (mainTag "sheet"))
      match sheetElems.find? (fun e => e.attr "name" == some sheetName) with
      | none => .error "Worksheet not found"
      | some sheetElem =>
        match sheetElem.attr (relTag "id") with
        | none => .error "missing relationship id"
        | some relId =>
          if relId = "" then .error "missing relationship id"
          else
            match zfRead zf "xl/_rels/workbook.xml.rels" with
            | .error e => .error e
            | .ok relsRaw =>
              match fromstring relsRaw with
              | .error e => .error e
              | .ok rels =>
                match (rels.findall (relTag "Relationship")).find?
                    (fun r => r.attr "Id" == some relId) with
                | none => .error "Could not resolve sheet path"
                | some rel =>
                  match rel.attr "Target" with
                  | none => .error "Could not resolve sheet path"
                  | some target =>
                    if target = "" then .error "Could not resolve sheet path"
                    else if strStarts target "/" then .ok (dropSlashes target)
                    else if strStarts target "xl/" then .ok target
                    else .ok ("xl/" ++ target)

/-- The leading `[A-Z]+` run of `cell_ref.upper()` (possibly empty). -/
def letterPartOf (s : String) : String :=
  String.mk ((s.data.map Char.toUpper).takeWhile (fun c => decide ('A' ≤ c ∧ c ≤ 'Z')))

def column_letter (cellRef : String) : Except String String :=
  let l := letterPartOf cellRef
  if l = "" then .error "Invalid cell reference" else .ok l

def column_index (letter : String) : Nat :=
  letter.data.foldl (fun idx ch => idx * 26 + (ch.toNat - 'A'.toNat + 1)) 0

/-- Total column key of a cell element, agreeing with
`column_index (column_letter (el.attrib["r"]))` whenever that computation
succeeds. -/
def colKeyTotal (el : Xml) : Nat :=
  column_index (letterPartOf ((el.attr "r").getD ""))

/-- Python list indexing (negative indices wrap once). -/
def pyListGet (l : List String) (i : Int) : Option String :=
  if 0 ≤ i then l.get? i.toNat
  else if i.natAbs ≤ l.length then l.get? (l.length - i.natAbs) else none

/-- `read_cell_text`.  The result is `none` exactly when the Python
function returns `None` (an `inlineStr` cell whose `t` element is empty). -/
def read_cell_text (cell : Xml) (sharedStrings : List String) : Except String (Option String) :=
  if cell.attr "t" == some "inlineStr" then
    match cell.findPath2 (mainTag "is") (mainTag "t") with
    | some tEl => .ok tEl.text
    | none => .ok (some "")
  else
    match cell.find (mainTag "v") with
    | none => .ok (some "")
    | some v =>
      if cell.attr "t" == some "s" then
        match v.text with
        | none => .error "TypeError: int() argument is None"
        | some txt =>
          match parseInt? txt with
          | none => .error "ValueError: invalid literal for int"
          | some i =>
            match pyListGet sharedStrings i with
            | none => .error "IndexError: list index out of range"
            | some s => .ok (some s)
      else .ok (some (v.text.getD ""))

/-- `str.strip()`. -/
def stripStr (s : String) : String := String.mk (stripChars s.data)

/-- `str.lower()` (ASCII; the header labels of interest are ASCII). -/
def lowerStr (s : String) : String := String.mk (s.data.map Char.toLower)

/-- The loop of `build_header_map` (lines 215-219) over the header cells,
threading the mapping dict. -/
def headerFold (ss : List String) : List Xml → List (String × String) →
    Except String (List (String × String))
  | [], m => .ok m
  | c :: rest, m =>
    match read_cell_text c ss with
    | .error e => .error e
    | .ok none => .error "AttributeError: NoneType has no attribute strip"
    | .ok (some t) =>
      let header := stripStr t
      if header = "" then headerFold ss rest m
      else
        match column_letter ((c.attr "r").getD "") with
        | .error e => .error e
        | .ok col => headerFold ss rest (dictInsert m (lowerStr header) col)

def build_header_map (sheetRoot : Xml) (sharedStrings : List String) :
    Except String (List (String × String)) :=
  match sheetRoot.find (mainTag "sheetData") with
  | none => .error "Worksheet is missing sheetData"
  | some sheetData =>
    match sheetData.children.find? (fun r => r.tag == mainTag "row" &&
        r.attr "r" == some (natToStr HEADER_ROW_INDEX)) with
    | none => .error "Worksheet is missing a header row"
    | some headerRow => headerFold sharedStrings (headerRow.findall (mainTag "c")) []

def cellSortKey (el : Xml) : Except String Nat :=
  match el.attr "r" with
  | none => .error "KeyError: r"
  | some r =>
    match column_letter r with
    | .error e => .error e
    | .ok l => .ok (column_index l)

/-- Sort relation for a row's children: by column index (Python's `sorted`
key).  `insertionSort` is stable, as is Python's sort. -/
def keyLe (a b : Nat × Xml) : Prop := a.1 ≤ b.1

instance : DecidableRel keyLe := fun a b => inferInstanceAs (Decidable (a.1 ≤ b.1))

instance : IsTotal (Nat × Xml) keyLe := ⟨fun a b => Nat.le_total a.1 b.1⟩

instance : IsTrans (Nat × Xml) keyLe := ⟨fun _ _ _ h1 h2 => Nat.le_trans h1 h2⟩

def find_or_create_cell (row : Xml) (column : String) (rowNumber : Nat) : Except String Xml :=
  let targetRef := column ++ natToStr rowNumber
  match (row.findall (mainTag "c")).find? (fun c => c.attr "r" == some targetRef) with
  | some _ => .ok row
  | none =>
    let cell := Xml.elem (mainTag "c") [("r", targetRef)] [] none
    let cs := row.children ++ [cell]
    match exMapM (fun el =>
        match cellSortKey el with
        | .error e => .error e
        | .ok k => .ok (k, el)) cs with
    | .error e => .error e
    | .ok keyed => .ok (row.withChildren ((List.insertionSort keyLe keyed).map (fun p => p.2)))

def set_numeric_value (cell : Xml) (value : Int) : Xml :=
  let cell₁ := cell.attrPop "t"
  match firstIdx (fun c => c.tag == mainTag "v") cell₁.children with
  | some i =>
    let v := (cell₁.children.get? i).getD (Xml.elem (mainTag "v") [] [] none)
    cell₁.withChildren (cell₁.children.set i (v.withText (some (intToStr value))))
  | none =>
    cell₁.withChildren (cell₁.children ++ [Xml.elem (mainTag "v") [] [] (some (intToStr value))])

/-- Apply `f` to the first `c` child carrying reference `ref` (the Python
code mutates the element object returned by `find_or_create_cell`; the sort
is stable, so that object is the first such child). -/
def modifyFirstCell (row : Xml) (ref : String) (f : Xml → Xml) : Xml :=
  match firstIdx (fun c => c.tag == mainTag "c" && c.attr "r" == some ref) row.children with
  | none => row
  | some i =>
    let c := (row.children.get? i).getD (Xml.elem (mainTag "c") [] [] none)
    row.withChildren (row.children.set i (f c))

/-- Python truthiness check `if not start_col` on an optional string. -/
def pyFalsyStr : Option String → Bool
  | none => true
  | some s => s == ""

def update_dates (sheetRoot : Xml) (headerMap : List (String × String)) (rowNumber : Nat)
    (startSerial endSerial : Int) (styleIndex : Option Nat) : Except String Xml :=
  match firstIdx (fun c => c.tag == mainTag "sheetData") sheetRoot.children with
  | none => .error "Worksheet is missing sheetData"
  | some sd =>
    let sheetData := (sheetRoot.children.get? sd).getD (Xml.elem (mainTag "sheetData") [] [] none)
    let rowStr := natToStr rowNumber
    let found := firstIdx (fun r => r.tag == mainTag "row" && r.attr "r" == some rowStr)
      sheetData.children
    let sheetData₁ :=
      match found with
      | some _ => sheetData
      | none => sheetData.withChildren
          (sheetData.children ++ [Xml.elem (mainTag "row") [("r", rowStr)] [] none])
    let rowIdx :=
      match found with
      | some i => i
      | none => sheetData.children.length
    let startCol? := alookup headerMap "target start date"
    let endCol? := alookup headerMap "target end date"
    if pyFalsyStr startCol? || pyFalsyStr endCol? then
      .error "Required headers not found. Expected Target Start Date and Target End Date."
    else
      let startCol := startCol?.getD ""
      let endCol := endCol?.getD ""
      let row := (sheetData₁.children.get? rowIdx).getD (Xml.elem (mainTag "row") [] [] none)
      match find_or_create_cell row startCol rowNumber with
      | .error e => .error e
      | .ok row₁ =>
        match find_or_create_cell row₁ endCol rowNumber with
        | .error e => .error e
        | .ok row₂ =>
          let sRef := startCol ++ natToStr rowNumber
          let eRef := endCol ++ natToStr rowNumber
          let row₃ := modifyFirstCell row₂ sRef (fun c => set_numeric_value c startSerial)
          let row₄ := modifyFirstCell row₃ eRef (fun c => set_numeric_value c endSerial)
          let row₅ :=
            match styleIndex with
            | some s => modifyFirstCell
                (modifyFirstCell row₄ sRef (fun c => c.attrSet "s" (natToStr s)))
                eRef (fun c => c.attrSet "s" (natToStr s))
            | none => modifyFirstCell
                (modifyFirstCell row₄ sRef (fun c => c.attrPop "s"))
                eRef (fun c => c.attrPop "s")
          let sheetData₂ := sheetData₁.withChildren (sheetData₁.children.set rowIdx row₅)
          .ok (sheetRoot.withChildren (sheetRoot.children.set sd sheetData₂))

/-- The body of the copy loop (lines 297-301) over the remaining
`infolist` entries: each input member is written with its replacement if
one is pending (`dict.pop`), else with the bytes of `zf.read(item.filename)`
— a *name*-resolved read, which on duplicated member names returns the
last entry's bytes (`zipfile`'s `NameToInfo` keeps the last entry).  The
entry's own name always resolves (the entry is in `zf`), so the positional
`data` default of `getD` is never read. -/
def buildOutputFrom (zf : Archive) :
    List (String × Member) → List (String × Member) → Archive × List (String × Member)
  | [], repl => ([], repl)
  | (name, data) :: rest, repl =>
    let p := dictPop repl name
    let written := p.1.getD ((zfLookup zf name).getD data)
    let r := buildOutputFrom zf rest p.2
    ((name, written) :: r.1, r.2)

/-- The copy loop (lines 297-301) over all of `zf.infolist()`. -/
def buildOutput (zf : Archive) (repl : List (String × Member)) :
    Archive × List (String × Member) :=
  buildOutputFrom zf zf repl

def replNames (repl : List (String × Member)) : String :=
  String.intercalate ", " (repl.map (fun p => p.1))

def write_updated_workbook (zf : Archive) (replacements : List (String × Member)) :
    Except String Archive :=
  let r := buildOutput zf replacements
  if r.2.isEmpty then .ok r.1
  else .error ("Did not write replacements for: " ++ replNames r.2)

/-- Filesystem view of the rewrite step: the content at the destination
path and at the temporary path. -/
structure FsState where
  dest : Option Archive
  temp : Option Archive

/-- `write_updated_workbook` with its filesystem effects: the zip is
written to the temporary path; on success `shutil.move` installs it as the
destination; the `finally` block removes the temporary file on every exit
path on which the move did not happen. -/
def write_updated_workbook_fs (zf : Archive) (replacements : List (String × Member))
    (fs : FsState) : Except String Unit × FsState :=
  let r := buildOutput zf replacements
  let fs₁ : FsState := { fs with temp := some r.1 }
  if r.2.isEmpty then
    (.ok (), { fs₁ with dest := some r.1, temp := none })
  else
    (.error ("Did not write replacements for: " ++ replNames r.2), { fs₁ with temp := none })

/-- The computation inside `with zipfile.ZipFile(...)` (lines 328-347): the
whole pipeline from the source archive to the rewritten archive. -/
def processWorkbook (zf : Archive) (sheetName : String) (rowNumber : Nat)
    (startSerial endSerial : Int) : Except String Archive :=
  match load_shared_strings zf with
  | .error e => .error e
  | .ok sharedStrings =>
  match load_styles zf with
  | .error e => .error e
  | .ok stylesRoot =>
  match ensure_date_style_index stylesRoot with
  | .error e => .error e
  | .ok (dateStyleIdx, stylesRoot₁) =>
  match resolve_sheet_path zf sheetName with
  | .error e => .error e
  | .ok sheetPath =>
  match zfRead zf sheetPath with
  | .error e => .error e
  | .ok sheetRaw =>
  match fromstring sheetRaw with
  | .error e => .error e
  | .ok sheetRoot =>
  match build_header_map sheetRoot sharedStrings with
  | .error e => .error e
  | .ok headerMap =>
  match update_dates sheetRoot headerMap rowNumber startSerial endSerial (some dateStyleIdx) with
  | .error e => .error e
  | .ok sheetRoot₁ =>
    let replacements := dictInsert (dictInsert [] sheetPath (serialize_xml sheetRoot₁))
      STYLES_PATH (serialize_xml stylesRoot₁)
    write_updated_workbook zf replacements

/-- The three file slots `main` can touch: the workbook path (also the
destination when editing in place), the explicit `--output` path, and the
`<workbook>.bak` path. -/
structure Files where
  workbook : Archive
  output : Option Archive
  backup : Option Archive

/-- `main` (lines 311-355) after argument parsing, for an existing workbook
and already-parsed dates.  `inPlace` is `output_path == workbook_path`.
The backup copy (lines 323-326) happens before the archive is even opened;
the destination is written only by the final rewrite. -/
def runMain (inPlace noBackup : Bool) (sheetName : String) (rowNumber : Nat)
    (startSerial endSerial : Int) (files : Files) : Except String Unit × Files :=
  let files₁ :=
    if inPlace && !noBackup then { files with backup := some files.workbook } else files
  match processWorkbook files.workbook sheetName rowNumber startSerial endSerial with
  | .error e => (.error e, files₁)
  | .ok out =>
    if inPlace then (.ok (), { files₁ with workbook := out })
    else (.ok (), { files₁ with output := some out })

/-- `optOr a b`: `a` unless it is `none`, else `b`. -/
def optOr {α : Type} : Option α → Option α → Option α
  | some v, _ => some v
  | none, b => b

/-- An `inlineStr` cell at `ref` holding `txt`. -/
def cellInline (ref txt : String) : Xml :=
  Xml.elem (mainTag "c") [("r", ref), ("t", "inlineStr")]
    [Xml.elem (mainTag "is") [] [Xml.elem (mainTag "t") [] [] (some txt)] none] none

def xf0 : Xml := Xml.elem (mainTag "xf") defaultXfAttrs [] none

/-- A minimal style table: one default cell format, no `numFmts`. -/
def stylesMin : Xml := Xml.elem (mainTag "styleSheet") []
  [Xml.elem (mainTag "cellXfs") [("count", "1")] [xf0] none] none

def wbMin : Xml := Xml.elem (mainTag "workbook") []
  [Xml.elem (mainTag "sheets") []
    [Xml.elem (mainTag "sheet") [("name", "Sheet1"), (relTag "id", "rId1")] [] none] none] none

def relsMin : Xml := Xml.elem (relTag "Relationships") []
  [Xml.elem (relTag "Relationship") [("Id", "rId1"), ("Target", "worksheets/sheet1.xml")] [] none]
  none

/-- Worksheet whose header row has only "Target Start Date" (no end date). -/
def sheetNoEnd : Xml := Xml.elem (mainTag "worksheet") []
  [Xml.elem (mainTag "sheetData") []
    [Xml.elem (mainTag "row") [("r", "1")] [cellInline "A1" "Target Start Date"] none] none] none

/-- Archive whose worksheet lacks the "Target End Date" header. -/
def zfNoEnd : Archive :=
  [("xl/workbook.xml", .xml wbMin), ("xl/_rels/workbook.xml.rels", .xml relsMin),
   ("xl/styles.xml", .xml stylesMin), ("xl/worksheets/sheet1.xml", .xml sheetNoEnd)]

def filesNoEnd : Files := ⟨zfNoEnd, none, none⟩

/-- Worksheet with both target headers. -/
def sheetBoth : Xml := Xml.elem (mainTag "worksheet") []
  [Xml.elem (mainTag "sheetData") []
    [Xml.elem (mainTag "row") [("r", "1")]
      [cellInline "A1" "Target Start Date", cellInline "B1" "Target End Date"] none] none] none

/-- A complete archive on which the whole operation succeeds; it carries an
extra opaque member that must be copied verbatim. -/
def zfGood : Archive :=
  [("xl/workbook.xml", .xml wbMin), ("xl/_rels/workbook.xml.rels", .xml relsMin),
   ("xl/styles.xml", .xml stylesMin), ("xl/worksheets/sheet1.xml", .xml sheetBoth),
   ("docProps/core.xml", .raw "opaque")]

/-- The archive `processWorkbook` produces on `zfGood`. -/
def outGood : Archive :=
  (processWorkbook zfGood "Sheet1" 2 45292 45306).toOption.getD []

/-- Like `zfGood`, but with two members named `docProps/core.xml` holding
different bytes — legal for `zipfile`, which resolves reads to the last
entry of that name. -/
def zfDup : Archive :=
  [("xl/workbook.xml", .xml wbMin), ("xl/_rels/workbook.xml.rels", .xml relsMin),
   ("xl/styles.xml", .xml stylesMin), ("xl/worksheets/sheet1.xml", .xml sheetBoth),
   ("docProps/core.xml", .raw "old"), ("docProps/core.xml", .raw "new")]

/-- The archive `processWorkbook` produces on `zfDup`. -/
def outDup : Archive :=
  (processWorkbook zfDup "Sheet1" 2 45292 45306).toOption.getD []

/-- The (lower-cased stripped text, column letter) pairs of the non-empty
header cells, in document order — the data `build_header_map`'s loop feeds
into the dict, kept as a plain list. -/
def headerPairs (ss : List String) : List Xml → Except String (List (String × String))
  | [] => .ok []
  | c :: rest =>
    match read_cell_text c ss with
    | .error e => .error e
    | .ok none => .error "AttributeError: NoneType has no attribute strip"
    | .ok (some t) =>
      let header := stripStr t
      if header = "" then headerPairs ss rest
      else
        match column_letter ((c.attr "r").getD "") with
        | .error e => .error e
        | .ok col =>
          match headerPairs ss rest with
          | .error e => .error e
          | .ok ps => .ok ((lowerStr header, col) :: ps)

/-- Worksheet with the given header-row cells (row 1). -/
def hdrSheet (cells : List Xml) : Xml := Xml.elem (mainTag "worksheet") []
  [Xml.elem (mainTag "sheetData") []
    [Xml.elem (mainTag "row") [("r", "1")] cells none] none] none

/-- A cell element with only a reference. -/
def cellRefOnly (r : String) : Xml := Xml.elem (mainTag "c") [("r", r)] [] none

/-- A row whose two cells have distinct references `A1`, `A5` but the same
column `A`. -/
def rowAA : Xml := Xml.elem (mainTag "row") [("r", "1")]
  [cellRefOnly "A1", cellRefOnly "A5"] none

/-- The `numFmt` entries of a styles root (empty when there is no
`numFmts` container). -/
def numFmtEntries (s : Xml) : List Xml :=
  match firstIdx (fun c => c.tag == mainTag "numFmts") s.children with
  | some i => ((s.children.get? i).getD emptyNumFmts).findall (mainTag "numFmt")
  | none => []

/-- A styles root on which `ensure_num_fmt_id` finds a reusable entry and
returns it untouched: the first `numFmts` child holds a first match for the
format code whose id parses to `fid`. -/
def nfFound (s : Xml) (code : String) (fid : Int) : Prop :=
  ∃ i nf f idStr,
    firstIdx (fun c => c.tag == mainTag "numFmts") s.children = some i ∧
    s.children.get? i = some nf ∧
    (nf.findall (mainTag "numFmt")).find? (fun g => g.attr "formatCode" == some code) = some f ∧
    f.attr "numFmtId" = some idStr ∧ parseInt? idStr = some fid

/-- The new entry appended by the allocation branch. -/
def newNumFmt (code : String) (newId : Int) : Xml :=
  Xml.elem (mainTag "numFmt") [("numFmtId", intToStr newId), ("formatCode", code)] [] none

/-- A styles root with one existing custom number format (id 200). -/
def stylesOneFmt : Xml := Xml.elem (mainTag "styleSheet") []
  [Xml.elem (mainTag "numFmts") [("count", "1")]
    [Xml.elem (mainTag "numFmt") [("numFmtId", "200"), ("formatCode", "X")] [] none] none,
   Xml.elem (mainTag "cellXfs") [("count", "1")] [xf0] none] none

/-- A styles root on which `ensure_cell_xf_index` finds a matching cell
format at index `xi` and returns the root untouched. -/
def xfFound (s : Xml) (fid : Int) (xi : Nat) : Prop :=
  ∃ j cx,
    firstIdx (fun c => c.tag == mainTag "cellXfs") s.children = some j ∧
    s.children.get? j = some cx ∧
    firstIdx (xfPred fid) (cx.findall (mainTag "xf")) = some xi

/-- First-run results on the minimal styles table. -/
def s1Run : Xml :=
  ((ensure_num_fmt_id stylesMin TARGET_NUMBER_FORMAT).toOption.getD (0, emptyNumFmts)).2

def s2Run : Xml := ((ensure_cell_xf_index s1Run 164).toOption.getD (0, emptyNumFmts)).2

/-! ## Theorems: supporting lemmas and the claim theorems C1-C10 -/

@[simp] theorem getOrErr_some {α : Type} (a : α) (m : String) :
    getOrErr (some a) m = .ok a := rfl

@[simp] theorem Xml.children_attrSet (x k v) : (Xml.attrSet x k v).children = x.children := rfl

@[simp] theorem Xml.tag_attrSet (x k v) : (Xml.attrSet x k v).tag = x.tag := rfl

@[simp] theorem Xml.children_withChildren (x cs) : (Xml.withChildren x cs).children = cs := rfl

@[simp] theorem Xml.attrs_withChildren (x cs) : (Xml.withChildren x cs).attrs = x.attrs := rfl

@[simp] theorem Xml.tag_withChildren (x cs) : (Xml.withChildren x cs).tag = x.tag := rfl

@[simp] theorem Xml.text_elem (t a c tx) : (Xml.elem t a c tx).text = tx := rfl

@[simp] theorem Xml.children_elem (t a c tx) : (Xml.elem t a c tx).children = c := rfl

@[simp] theorem Xml.attrs_elem (t a c tx) : (Xml.elem t a c tx).attrs = a := rfl

@[simp] theorem Xml.tag_elem (t a c tx) : (Xml.elem t a c tx).tag = t := rfl

@[simp] theorem alookup_nil {α : Type} (k : String) :
    alookup ([] : List (String × α)) k = none := rfl

theorem alookup_cons {α : Type} (k' : String) (v : α) (rest : List (String × α)) (k : String) :
    alookup ((k', v) :: rest) k = if k' = k then some v else alookup rest k := rfl

/-- Lookup after a dict insertion. -/
theorem alookup_dictInsert {α : Type} (m : List (String × α)) (k k' : String) (v : α) :
    alookup (dictInsert m k v) k' = if k = k' then some v else alookup m k' := by
  induction m with
  | nil =>
    simp only [dictInsert, alookup_cons, alookup_nil]
  | cons head rest ih =>
    obtain ⟨hk, hv⟩ := head
    by_cases h1 : hk = k
    · subst h1
      by_cases h2 : hk = k'
      · simp [dictInsert, alookup_cons, h2]
      · simp [dictInsert, alookup_cons, h2]
    · by_cases h2 : hk = k'
      · subst h2
        have hne' : ¬ k = hk := fun h => h1 h.symm
        simp [dictInsert, alookup_cons, h1, hne', ih]
      · simp [dictInsert, alookup_cons, h1, h2, ih]

@[simp] theorem getOrErr_none {α : Type} (m : String) :
    getOrErr (none : Option α) m = .error m := rfl

theorem dictPop_not_mem {α : Type} (m : List (String × α)) (k : String)
    (h : ∀ p ∈ m, p.1 ≠ k) : dictPop m k = (none, m) := by
  induction m with
  | nil => rfl
  | cons head rest ih =>
    have hh : head.1 ≠ k := h head (List.mem_cons_self _ _)
    obtain ⟨hk, hv⟩ := head
    simp only [dictPop, if_neg hh]
    rw [ih (fun p hp => h p (List.mem_cons_of_mem _ hp))]

/-- Keys surviving a pop are among the original keys. -/
theorem dictPop_keys_subset {α : Type} (m : List (String × α)) (k k' : String)
    (h : k' ∈ (dictPop m k).2.map (·.1)) : k' ∈ m.map (·.1) := by
  induction m with
  | nil => simpa [dictPop] using h
  | cons head rest ih =>
    obtain ⟨hk, hv⟩ := head
    by_cases heq : hk = k
    · simp only [dictPop, if_pos heq] at h
      simp only [List.map_cons]
      exact List.mem_cons_of_mem _ h
    · simp only [dictPop, if_neg heq, List.map_cons, List.mem_cons] at h
      rcases h with h | h
      · simp [h]
      · simp [ih h]

/-- A key that matches no popped name stays in the dict with pop leaving
membership intact. -/
theorem dictPop_mem_of_ne {α : Type} (m : List (String × α)) (k name : String)
    (hmem : k ∈ m.map (·.1)) (hne : name ≠ k) : k ∈ (dictPop m name).2.map (·.1) := by
  induction m with
  | nil => simpa using hmem
  | cons head rest ih =>
    obtain ⟨hk, hv⟩ := head
    by_cases heq : hk = name
    · subst heq
      simp only [dictPop, if_pos rfl]
      simp only [List.map_cons, List.mem_cons] at hmem
      rcases hmem with h | h
      · exact absurd h.symm (by simpa using hne)
      · exact h
    · simp only [dictPop, if_neg heq, List.map_cons, List.mem_cons]
      simp only [List.map_cons, List.mem_cons] at hmem
      rcases hmem with h | h
      · exact Or.inl h
      · exact Or.inr (ih h)

theorem digitVal?_digitToChar {d : Nat} (h : d < 10) :
    digitVal? (digitToChar d) = some d := by
  interval_cases d <;> rfl

theorem natDigitsRev_lt (fuel : Nat) : ∀ (n : Nat), ∀ d ∈ natDigitsRev fuel n, d < 10 := by
  induction fuel with
  | zero => intro n d hd; simp [natDigitsRev] at hd
  | succ f ih =>
    intro n d hd
    by_cases h : n = 0
    · simp [natDigitsRev, h] at hd
    · simp only [natDigitsRev, if_neg h] at hd
      rcases List.mem_cons.1 hd with h1 | h1
      · subst h1; exact Nat.mod_lt _ (by omega)
      · exact ih (n / 10) d h1

theorem foldl_reverse_decode (ds : List Nat) :
    (ds.reverse).foldl (fun a d => a * 10 + d) 0 = decodeRevDigits ds := by
  induction ds with
  | nil => rfl
  | cons d rest ih =>
    simp only [List.reverse_cons, List.foldl_append, List.foldl_cons, List.foldl_nil,
      decodeRevDigits, ih]
    omega

theorem natDigitsRev_decode (fuel : Nat) : ∀ n ≤ fuel, decodeRevDigits (natDigitsRev fuel n) = n := by
  induction fuel with
  | zero =>
    intro n h
    have : n = 0 := by omega
    simp [natDigitsRev, this, decodeRevDigits]
  | succ f ih =>
    intro n h
    by_cases hz : n = 0
    · simp [natDigitsRev, hz, decodeRevDigits]
    · simp only [natDigitsRev, if_neg hz, decodeRevDigits]
      have hle : n / 10 ≤ f := by omega
      rw [ih (n / 10) hle]
      omega

theorem natDigitsRev_ne_nil (fuel n : Nat) (hn : 0 < n) (h : n ≤ fuel) :
    natDigitsRev fuel n ≠ [] := by
  match fuel with
  | 0 => omega
  | f + 1 =>
    simp only [natDigitsRev, if_neg (by omega : ¬ n = 0)]
    exact List.cons_ne_nil _ _

theorem mapM_digitVal_digitToChar (ds : List Nat) (h : ∀ d ∈ ds, d < 10) :
    (ds.map digitToChar).mapM digitVal? = some ds := by
  induction ds with
  | nil => rfl
  | cons d rest ih =>
    have hd : d < 10 := h d (List.mem_cons_self _ _)
    have hrest := ih (fun x hx => h x (List.mem_cons_of_mem _ hx))
    simp only [List.map_cons, List.mapM_cons, digitVal?_digitToChar hd, hrest]
    rfl

theorem dropWhile_no_ws (cs : List Char) (h : ∀ c ∈ cs, isWsChar c = false) :
    cs.dropWhile isWsChar = cs := by
  cases cs with
  | nil => rfl
  | cons c rest => simp [List.dropWhile, h c (List.mem_cons_self _ _)]

theorem stripChars_of_no_ws (cs : List Char) (h : ∀ c ∈ cs, isWsChar c = false) :
    stripChars cs = cs := by
  unfold stripChars
  rw [dropWhile_no_ws cs h]
  rw [dropWhile_no_ws cs.reverse (fun c hc => h c (List.mem_reverse.1 hc))]
  exact List.reverse_reverse cs

theorem digitToChar_not_ws {d : Nat} (h : d < 10) : isWsChar (digitToChar d) = false := by
  interval_cases d <;> rfl

theorem digitToChar_ne_dash {d : Nat} (h : d < 10) : digitToChar d ≠ '-' := by
  interval_cases d <;> decide

theorem digitToChar_ne_plus {d : Nat} (h : d < 10) : digitToChar d ≠ '+' := by
  interval_cases d <;> decide

theorem natToStr_data (n : Nat) (h : n ≠ 0) :
    (natToStr n).data = ((natDigitsRev n n).reverse).map digitToChar := by
  unfold natToStr
  rw [if_neg h]

theorem natToStr_no_ws (n : Nat) : ∀ c ∈ (natToStr n).data, isWsChar c = false := by
  by_cases hz : n = 0
  · subst hz; decide
  · rw [natToStr_data n hz]
    intro c hc
    rcases List.mem_map.1 hc with ⟨d, hd, rfl⟩
    exact digitToChar_not_ws (natDigitsRev_lt n n d (List.mem_reverse.1 hd))

theorem parseNat_natToStr (n : Nat) : parseNatChars (natToStr n).data = some n := by
  by_cases hz : n = 0
  · subst hz; rfl
  · unfold natToStr
    rw [if_neg hz]
    have hdata : (String.mk (((natDigitsRev n n).reverse).map digitToChar)).data
        = ((natDigitsRev n n).reverse).map digitToChar := rfl
    rw [hdata]
    have hne : (natDigitsRev n n) ≠ [] := natDigitsRev_ne_nil n n (by omega) le_rfl
    have hlt : ∀ d ∈ (natDigitsRev n n).reverse, d < 10 := by
      intro d hd
      exact natDigitsRev_lt n n d (by simpa using hd)
    have hmapM := mapM_digitVal_digitToChar ((natDigitsRev n n).reverse) hlt
    have hnonempty : (((natDigitsRev n n).reverse).map digitToChar).isEmpty = false := by
      rw [List.isEmpty_eq_false_iff_exists_mem]
      rcases hrev : (natDigitsRev n n) with _ | ⟨d, ds⟩
      · exact absurd hrev hne
      · exact ⟨digitToChar d, by simp [hrev]⟩
    unfold parseNatChars
    rw [hnonempty, hmapM]
    simp only [Bool.false_eq_true, if_false]
    rw [foldl_reverse_decode, natDigitsRev_decode n n le_rfl]

theorem parseIntChars_natToStr (n : Nat) :
    parseIntChars (natToStr n).data = some (n : Int) := by
  by_cases hz : n = 0
  · subst hz; rfl
  · have hdata := natToStr_data n hz
    have hne : (natDigitsRev n n) ≠ [] := natDigitsRev_ne_nil n n (by omega) le_rfl
    rcases hrev : (natDigitsRev n n).reverse with _ | ⟨d, ds⟩
    · exact absurd (by simpa using congrArg List.reverse hrev) hne
    · have hdlt : d < 10 := natDigitsRev_lt n n d (by
        have : d ∈ (natDigitsRev n n).reverse := by simp [hrev]
        exact List.mem_reverse.1 this)
      have hcons : (natToStr n).data = digitToChar d :: ds.map digitToChar := by
        rw [hdata, hrev, List.map_cons]
      rw [hcons]
      have h1 : ¬ (digitToChar d = '-') := digitToChar_ne_dash hdlt
      have h2 : ¬ (digitToChar d = '+') := digitToChar_ne_plus hdlt
      simp only [parseIntChars, if_neg h1, if_neg h2]
      rw [← hcons, parseNat_natToStr n]
      rfl

/-- Roundtrip between the models of `str` and `int`. -/
theorem parseInt?_intToStr (i : Int) : parseInt? (intToStr i) = some i := by
  cases i with
  | ofNat n =>
    unfold parseInt? intToStr
    rw [stripChars_of_no_ws _ (natToStr_no_ws n)]
    exact parseIntChars_natToStr n
  | negSucc n =>
    unfold parseInt? intToStr
    have hdata : ("-" ++ natToStr (n + 1)).data = '-' :: (natToStr (n + 1)).data := by
      simp [String.data_append]
    rw [hdata]
    rw [stripChars_of_no_ws _ (by
      intro c hc
      rcases List.mem_cons.1 hc with rfl | hc
      · rfl
      · exact natToStr_no_ws (n + 1) c hc)]
    simp only [parseIntChars, if_pos rfl]
    have hps := parseNat_natToStr (n + 1)
    rw [hps]
    simp [Int.negSucc_eq]

theorem firstIdx_eq_none_iff {α : Type} (p : α → Bool) (l : List α) :
    firstIdx p l = none ↔ ∀ a ∈ l, p a = false := by
  induction l with
  | nil => simp [firstIdx]
  | cons a rest ih =>
    by_cases h : p a
    · simp [firstIdx, h]
    · simp only [firstIdx, if_neg h, List.mem_cons]
      constructor
      · intro hmap b hb
        rcases hb with rfl | hb
        · simpa using h
        · exact ih.1 (by
            rcases hfi : firstIdx p rest with _ | i
            · rfl
            · rw [hfi] at hmap; simp at hmap) b hb
      · intro hall
        rw [ih.2 (fun b hb => hall b (Or.inr hb))]
        rfl

theorem firstIdx_some_get {α : Type} (p : α → Bool) (l : List α) (i : Nat)
    (h : firstIdx p l = some i) : ∃ a, l.get? i = some a ∧ p a = true := by
  induction l generalizing i with
  | nil => simp [firstIdx] at h
  | cons a rest ih =>
    by_cases hp : p a
    · simp only [firstIdx, if_pos hp, Option.some.injEq] at h
      subst h
      exact ⟨a, rfl, hp⟩
    · simp only [firstIdx, if_neg hp] at h
      rcases hfi : firstIdx p rest with _ | j
      · rw [hfi] at h; simp at h
      · rw [hfi] at h
        simp only [Option.map_some', Option.some.injEq] at h
        subst h
        rcases ih j hfi with ⟨b, hb, hpb⟩
        exact ⟨b, by simpa using hb, hpb⟩

theorem firstIdx_lt_length {α : Type} (p : α → Bool) (l : List α) (i : Nat)
    (h : firstIdx p l = some i) : i < l.length := by
  rcases firstIdx_some_get p l i h with ⟨a, ha, _⟩
  exact List.get?_eq_some.1 ha |>.choose

theorem firstIdx_set_preserved {α : Type} (p : α → Bool) (l : List α) (i : Nat) (x : α)
    (h : firstIdx p l = some i) (hx : p x = true) : firstIdx p (l.set i x) = some i := by
  induction l generalizing i with
  | nil => simp [firstIdx] at h
  | cons a rest ih =>
    by_cases hp : p a
    · simp only [firstIdx, if_pos hp, Option.some.injEq] at h
      subst h
      simp [List.set, firstIdx, hx]
    · simp only [firstIdx, if_neg hp] at h
      rcases hfi : firstIdx p rest with _ | j
      · rw [hfi] at h; simp at h
      · rw [hfi] at h
        simp only [Option.map_some', Option.some.injEq] at h
        subst h
        simp [List.set, firstIdx, hp, ih j hfi]

theorem firstIdx_set_other {α : Type} (p : α → Bool) (l : List α) (i j : Nat) (x : α)
    (h : firstIdx p l = some i) (hne : j ≠ i) (hx : p x = false) :
    firstIdx p (l.set j x) = some i := by
  induction l generalizing i j with
  | nil => simp [firstIdx] at h
  | cons a rest ih =>
    by_cases hp : p a
    · simp only [firstIdx, if_pos hp, Option.some.injEq] at h
      subst h
      cases j with
      | zero => exact absurd rfl hne
      | succ j' => simp [List.set, firstIdx, hp]
    · simp only [firstIdx, if_neg hp] at h
      rcases hfi : firstIdx p rest with _ | k
      · rw [hfi] at h; simp at h
      · rw [hfi] at h
        simp only [Option.map_some', Option.some.injEq] at h
        subst h
        cases j with
        | zero => simp [List.set, firstIdx, hx, hfi]
        | succ j' =>
          simp [List.set, firstIdx, hp, ih k j' hfi (fun hj => hne (by omega))]

theorem firstIdx_append_singleton {α : Type} (p : α → Bool) (l : List α) (x : α)
    (h : firstIdx p l = none) (hx : p x = true) :
    firstIdx p (l ++ [x]) = some l.length := by
  induction l with
  | nil => simp [firstIdx, hx]
  | cons a rest ih =>
    have ha : p a = false := (firstIdx_eq_none_iff p (a :: rest)).1 h a (List.mem_cons_self _ _)
    have hrest : firstIdx p rest = none := by
      rw [firstIdx_eq_none_iff]
      exact fun b hb => (firstIdx_eq_none_iff p (a :: rest)).1 h b (List.mem_cons_of_mem _ hb)
    simp [firstIdx, ha, ih hrest]

@[simp] theorem optOr_none {α : Type} (b : Option α) : optOr none b = b := rfl

theorem optOr_assoc {α : Type} (a b c : Option α) :
    optOr (optOr a b) c = optOr a (optOr b c) := by
  cases a <;> rfl

@[simp] theorem optOr_some {α : Type} (v : α) (b : Option α) : optOr (some v) b = some v := rfl

theorem alookup_append {α : Type} (l1 l2 : List (String × α)) (k : String) :
    alookup (l1 ++ l2) k = optOr (alookup l1 k) (alookup l2 k) := by
  induction l1 with
  | nil => simp
  | cons head rest ih =>
    obtain ⟨hk, hv⟩ := head
    by_cases h : hk = k
    · simp [alookup_cons, h]
    · simp [alookup_cons, h, ih]

theorem buildOutputFrom_names (zf : Archive) (l : List (String × Member)) :
    ∀ repl, ((buildOutputFrom zf l repl).1).map (fun p => p.1) = l.map (fun p => p.1) := by
  induction l with
  | nil => intro repl; rfl
  | cons e rest ih =>
    intro repl
    obtain ⟨name, data⟩ := e
    simp [buildOutputFrom, ih]

theorem buildOutput_names (zf : Archive) (repl : List (String × Member)) :
    ((buildOutput zf repl).1).map (fun p => p.1) = zf.map (fun p => p.1) :=
  buildOutputFrom_names zf zf repl

/-- A member whose name is never replaced is written with the bytes the
name resolves to — the last input entry of that name. -/
theorem buildOutputFrom_frame (zf : Archive) (l : List (String × Member)) :
    ∀ repl i name data, l.get? i = some (name, data) →
      ¬ name ∈ repl.map (fun p => p.1) →
      ((buildOutputFrom zf l repl).1).get? i =
        some (name, (zfLookup zf name).getD data) := by
  induction l with
  | nil => intro repl i name data h _; simp at h
  | cons e rest ih =>
    intro repl i name data h hnotin
    obtain ⟨name₀, data₀⟩ := e
    cases i with
    | zero =>
      simp only [List.get?] at h
      have hpair := Option.some.inj h
      have h1 : name₀ = name := congrArg Prod.fst hpair
      have h2 : data₀ = data := congrArg Prod.snd hpair
      subst h1
      subst h2
      have hpop : dictPop repl name₀ = (none, repl) :=
        dictPop_not_mem repl name₀ (fun p hp hpk =>
          hnotin (hpk ▸ List.mem_map_of_mem _ hp))
      simp [buildOutputFrom, hpop]
    | succ i' =>
      simp only [List.get?] at h
      have hnotin' : ¬ name ∈ ((dictPop repl name₀).2).map (fun p => p.1) :=
        fun hmem => hnotin (dictPop_keys_subset repl name₀ name hmem)
      simpa [buildOutputFrom] using ih (dictPop repl name₀).2 i' name data h hnotin'

theorem buildOutputFrom_leftover_mem (zf : Archive) (l : List (String × Member)) :
    ∀ repl k, k ∈ repl.map (fun p => p.1) → ¬ k ∈ l.map (fun p => p.1) →
      k ∈ ((buildOutputFrom zf l repl).2).map (fun p => p.1) := by
  induction l with
  | nil => intro repl k hk _; simpa [buildOutputFrom] using hk
  | cons e rest ih =>
    intro repl k hk hnot
    obtain ⟨name, data⟩ := e
    have hne : name ≠ k := by
      intro h
      exact hnot (by simp [h])
    have hnot' : ¬ k ∈ rest.map (fun p => p.1) := fun h => hnot (by simp [h])
    have hmem' : k ∈ ((dictPop repl name).2).map (fun p => p.1) :=
      dictPop_mem_of_ne repl k name hk hne
    simpa [buildOutputFrom] using ih (dictPop repl name).2 k hmem' hnot'

theorem buildOutput_leftover_mem (zf : Archive) :
    ∀ repl k, k ∈ repl.map (fun p => p.1) → ¬ k ∈ zf.map (fun p => p.1) →
      k ∈ ((buildOutput zf repl).2).map (fun p => p.1) := by
  intro repl k hk hnot
  exact buildOutputFrom_leftover_mem zf zf repl k hk hnot

/-- In an association list with distinct keys, lookup finds any binding. -/
theorem alookup_of_mem_nodup {α : Type} (l : List (String × α)) (name : String) (v : α)
    (hmem : (name, v) ∈ l) (hnodup : (l.map (fun p => p.1)).Nodup) :
    alookup l name = some v := by
  induction l with
  | nil => simp at hmem
  | cons head rest ih =>
    obtain ⟨hk, hv⟩ := head
    rcases List.mem_cons.1 hmem with heq | hmem'
    · have h1 : hk = name := (congrArg Prod.fst heq).symm
      have h2 : hv = v := (congrArg Prod.snd heq).symm
      subst h1
      subst h2
      simp [alookup_cons]
    · have hne : hk ≠ name := by
        intro h
        subst h
        have : hk ∈ rest.map (fun p => p.1) := List.mem_map_of_mem _ hmem'
        simp only [List.map_cons, List.nodup_cons] at hnodup
        exact hnodup.1 this
      rw [alookup_cons, if_neg hne]
      exact ih hmem' (by
        simp only [List.map_cons, List.nodup_cons] at hnodup
        exact hnodup.2)

/-- With no duplicate member names, the name-resolved read returns the
entry's own bytes. -/
theorem zfLookup_of_nodup (zf : Archive) (i : Nat) (name : String) (data : Member)
    (hget : zf.get? i = some (name, data)) (hnodup : (zf.map (fun p => p.1)).Nodup) :
    zfLookup zf name = some data := by
  have hmem : (name, data) ∈ zf := List.get?_mem hget
  have hmem' : (name, data) ∈ zf.reverse := List.mem_reverse.2 hmem
  have hnodup' : (zf.reverse.map (fun p => p.1)).Nodup := by
    rw [List.map_reverse]
    exact List.nodup_reverse.2 hnodup
  exact alookup_of_mem_nodup zf.reverse name data hmem' hnodup'

/-- Claim C2: the date-to-serial conversion is the linear day offset from
the fixed epoch 1899-12-30: for every date, `excel_serial` is the
difference of proleptic-Gregorian ordinals with that epoch; in particular
1899-12-30 maps to 0, 1900-01-01 to 2, and 2024-01-01 to 45292. -/
theorem C2_excel_serial_linear :
    (∀ y m d : Nat, excel_serial y m d =
      (toOrdinal y m d : Int) - (toOrdinal 1899 12 30 : Int)) ∧
    excel_serial 1899 12 30 = 0 ∧
    excel_serial 1900 1 1 = 2 ∧
    excel_serial 2024 1 1 = 45292 :=
  ⟨fun _ _ _ => rfl, by decide, by decide, by decide⟩

/-- Claim C8: the rewrite is all-or-nothing with a consumed-replacements
check.  If some declared replacement name matches no archive member, the
operation fails, the destination is untouched and the temporary file is
removed; when it succeeds, every declared replacement name matched a
member and the built archive is moved onto the destination (with the
temporary file gone). -/
theorem C8_write_updated_workbook_atomic (zf : Archive)
    (repl : List (String × Member)) (fs : FsState) :
    (∀ k, k ∈ repl.map (fun p => p.1) → ¬ k ∈ zf.map (fun p => p.1) →
      ∃ e, write_updated_workbook_fs zf repl fs =
        (.error e, { dest := fs.dest, temp := none })) ∧
    ((write_updated_workbook_fs zf repl fs).1 = .ok () →
      (write_updated_workbook_fs zf repl fs).2 =
          { dest := some (buildOutput zf repl).1, temp := none } ∧
        ∀ k ∈ repl.map (fun p => p.1), k ∈ zf.map (fun p => p.1)) := by
  constructor
  · intro k hk hnot
    have hmem := buildOutput_leftover_mem zf repl k hk hnot
    have hne : ((buildOutput zf repl).2).isEmpty = false := by
      rcases hres : (buildOutput zf repl).2 with _ | ⟨p, rest⟩
      · rw [hres] at hmem; simp at hmem
      · rfl
    refine ⟨"Did not write replacements for: " ++ replNames (buildOutput zf repl).2, ?_⟩
    simp only [write_updated_workbook_fs, hne, Bool.false_eq_true, if_false]
  · intro hok
    have hempty : ((buildOutput zf repl).2).isEmpty = true := by
      by_contra hne
      have hne' : ((buildOutput zf repl).2).isEmpty = false := by
        cases h : ((buildOutput zf repl).2).isEmpty
        · rfl
        · exact absurd h hne
      simp only [write_updated_workbook_fs, hne', Bool.false_eq_true, if_false] at hok
      exact Except.noConfusion hok
    constructor
    · simp only [write_updated_workbook_fs, hempty, if_true]
    · intro k hk
      by_contra hnot
      have hmem := buildOutput_leftover_mem zf repl k hk hnot
      rcases hres : (buildOutput zf repl).2 with _ | ⟨p, rest⟩
      · rw [hres] at hmem; simp at hmem
      · rw [hres] at hempty; simp at hempty

/-- Witness for C8: a replacement name matching no member makes the rewrite
fail with the destination untouched and the temporary file removed. -/
theorem C8_witness :
    ∃ e, write_updated_workbook_fs [("xl/a.xml", Member.raw "x")]
        [("xl/b.xml", Member.raw "y")] ⟨some [], none⟩ =
      (.error e, { dest := some [], temp := none }) :=
  (C8_write_updated_workbook_atomic [("xl/a.xml", Member.raw "x")]
    [("xl/b.xml", Member.raw "y")] ⟨some [], none⟩).1 "xl/b.xml"
    (by simp) (by simp)

theorem dictInsert_keys_subset {α : Type} (m : List (String × α)) (k : String) (v : α) :
    ∀ k', k' ∈ (dictInsert m k v).map (fun p => p.1) → k' ∈ m.map (fun p => p.1) ∨ k' = k := by
  induction m with
  | nil =>
    intro k' h
    simp only [dictInsert, List.map_cons, List.map_nil, List.mem_cons] at h
    rcases h with h | h
    · exact Or.inr h
    · simp at h
  | cons head rest ih =>
    intro k' h
    obtain ⟨hk, hv⟩ := head
    by_cases heq : hk = k
    · simp only [dictInsert, if_pos heq, List.map_cons, List.mem_cons] at h
      rcases h with h | h
      · exact Or.inl (by simp [h])
      · exact Or.inl (by simp [h])
    · simp only [dictInsert, if_neg heq, List.map_cons, List.mem_cons] at h
      rcases h with h | h
      · exact Or.inl (by simp [h])
      · rcases ih k' h with h' | h'
        · exact Or.inl (by simp [h'])
        · exact Or.inr h'

/-- Claim C3 (amended): for every input archive on which the operation
succeeds, every archive member other than the resolved worksheet member and
the style-table member `xl/styles.xml` keeps its name and position, and its
bytes in the output are those of the *last* input member bearing its name
(`zf.read` resolves names through `zipfile`'s last-entry-wins `NameToInfo`
map); in particular, when the input archive has no duplicate member names,
every such member is byte-identical to its content in the input archive. -/
theorem C3_round_trip_preservation (zf : Archive) (sheetName : String) (rowNumber : Nat)
    (sS eS : Int) (out : Archive) (sp : String)
    (hok : processWorkbook zf sheetName rowNumber sS eS = .ok out)
    (hsp : resolve_sheet_path zf sheetName = .ok sp) :
    out.map (fun p => p.1) = zf.map (fun p => p.1) ∧
    (∀ i name data, zf.get? i = some (name, data) → name ≠ sp → name ≠ STYLES_PATH →
      out.get? i = some (name, (zfLookup zf name).getD data)) ∧
    ((zf.map (fun p => p.1)).Nodup →
      ∀ i name data, zf.get? i = some (name, data) → name ≠ sp → name ≠ STYLES_PATH →
        out.get? i = some (name, data)) := by
  unfold processWorkbook at hok
  rcases h1 : load_shared_strings zf with e1 | ss <;> rw [h1] at hok <;> dsimp only at hok
  · exact Except.noConfusion hok
  rcases h2 : load_styles zf with e2 | stylesRoot <;> rw [h2] at hok <;> dsimp only at hok
  · exact Except.noConfusion hok
  rcases h3 : ensure_date_style_index stylesRoot with e3 | dsi <;> rw [h3] at hok <;>
    dsimp only at hok
  · exact Except.noConfusion hok
  obtain ⟨dateStyleIdx, stylesRoot₁⟩ := dsi
  rcases h4 : resolve_sheet_path zf sheetName with e4 | spath <;> rw [h4] at hok <;>
    dsimp only at hok
  · exact Except.noConfusion hok
  have hspeq : spath = sp := by
    rw [h4] at hsp
    exact Except.ok.inj hsp
  subst hspeq
  rcases h5 : zfRead zf spath with e5 | sheetRaw <;> rw [h5] at hok <;> dsimp only at hok
  · exact Except.noConfusion hok
  rcases h6 : fromstring sheetRaw with e6 | sheetRoot <;> rw [h6] at hok <;> dsimp only at hok
  · exact Except.noConfusion hok
  rcases h7 : build_header_map sheetRoot ss with e7 | headerMap <;> rw [h7] at hok <;>
    dsimp only at hok
  · exact Except.noConfusion hok
  rcases h8 : update_dates sheetRoot headerMap rowNumber sS eS (some dateStyleIdx)
      with e8 | sheetRoot₁ <;> rw [h8] at hok <;> dsimp only at hok
  · exact Except.noConfusion hok
  set repl := dictInsert (dictInsert [] spath (serialize_xml sheetRoot₁))
    STYLES_PATH (serialize_xml stylesRoot₁) with hrepl
  unfold write_updated_workbook at hok
  by_cases hE : ((buildOutput zf repl).2).isEmpty = true
  · rw [if_pos hE] at hok
    have hout : (buildOutput zf repl).1 = out := Except.ok.inj hok
    have hframe : ∀ i name data, zf.get? i = some (name, data) → name ≠ spath →
        name ≠ STYLES_PATH → out.get? i = some (name, (zfLookup zf name).getD data) := by
      intro i name data hget hne1 hne2
      rw [← hout]
      refine buildOutputFrom_frame zf zf repl i name data hget ?_
      intro hmem
      rcases dictInsert_keys_subset _ _ _ name hmem with hmem' | heq
      · rcases dictInsert_keys_subset _ _ _ name hmem' with hmem'' | heq'
        · simp at hmem''
        · exact hne1 heq'
      · exact hne2 heq
    refine ⟨?_, hframe, ?_⟩
    · rw [← hout]
      exact buildOutput_names zf repl
    · intro hnodup i name data hget hne1 hne2
      have h := hframe i name data hget hne1 hne2
      rw [zfLookup_of_nodup zf i name data hget hnodup] at h
      exact h
  · rw [if_neg hE] at hok
    exact absurd hok (by simp)

/-- Witness for C3 on a concrete archive without duplicate member names:
the extra opaque member `docProps/core.xml` survives the successful run
byte-for-byte. -/
theorem C3_witness :
    processWorkbook zfGood "Sheet1" 2 45292 45306 = .ok outGood ∧
    zfGood.get? 4 = some ("docProps/core.xml", Member.raw "opaque") ∧
    outGood.get? 4 = some ("docProps/core.xml", Member.raw "opaque") := by
  have h := C3_round_trip_preservation zfGood "Sheet1" 2 45292 45306 outGood
    "xl/worksheets/sheet1.xml" (by rfl) (by rfl)
  exact ⟨by rfl, by rfl,
    h.2.2 (by decide) 4 "docProps/core.xml" (Member.raw "opaque") (by rfl)
      (by decide) (by decide)⟩

/-- Counterexample to the original C3 wording: on an archive with two
members named `docProps/core.xml` (bytes "old" then "new"), the run
succeeds, yet the member at position 4 — neither the worksheet nor the
style table — comes out with the *last* entry's bytes "new", not its own
bytes "old": the copy loop reads every member back by *name*. -/
theorem C3_counterexample :
    processWorkbook zfDup "Sheet1" 2 45292 45306 = .ok outDup ∧
    zfDup.get? 4 = some ("docProps/core.xml", Member.raw "old") ∧
    outDup.get? 4 = some ("docProps/core.xml", Member.raw "new") ∧
    Member.raw "old" ≠ Member.raw "new" := by
  refine ⟨by rfl, by rfl, by rfl, ?_⟩
  intro h
  injection h with h'
  exact absurd h' (by decide)

/-- When the pipeline fails, `main` changes no file except (possibly) the
backup: the backup copy is made before the archive is even opened, so it is
present exactly when editing in place without `--no-backup`. -/
theorem runMain_of_processError (inPlace noBackup : Bool) (sheetName : String)
    (rowNumber : Nat) (sS eS : Int) (files : Files) (e : String)
    (h : processWorkbook files.workbook sheetName rowNumber sS eS = .error e) :
    runMain inPlace noBackup sheetName rowNumber sS eS files =
      (.error e,
        { workbook := files.workbook, output := files.output,
          backup := if inPlace && !noBackup then some files.workbook else files.backup }) := by
  unfold runMain
  rw [h]
  by_cases hb : (inPlace && !noBackup) = true
  · rw [if_pos hb, if_pos hb]
  · rw [if_neg hb, if_neg hb]

/-- When the header map lacks a usable "target start date" or "target end
date" column, `update_dates` fails (with the missing-header message, or
earlier on a sheet without `sheetData`). -/
theorem update_dates_missing_header (sheetRoot : Xml) (headerMap : List (String × String))
    (rowNumber : Nat) (sS eS : Int) (si : Option Nat)
    (hmiss : (pyFalsyStr (alookup headerMap "target start date")
      || pyFalsyStr (alookup headerMap "target end date")) = true) :
    ∃ e, update_dates sheetRoot headerMap rowNumber sS eS si = .error e := by
  rcases h : firstIdx (fun c => c.tag == mainTag "sheetData") sheetRoot.children with _ | sd
  · refine ⟨"Worksheet is missing sheetData", ?_⟩
    unfold update_dates
    rw [h]
  · refine ⟨"Required headers not found. Expected Target Start Date and Target End Date.", ?_⟩
    unfold update_dates
    rw [h]
    dsimp only
    rw [if_pos hmiss]

/-- Claim C1 (amended): on every workbook whose header row lacks a usable
"Target Start Date" or "Target End Date" header — whenever the pipeline's
header extraction yields a map in which one of the two lookups is missing
or empty — the run fails, the destination workbook and any separate output
file are unchanged; the backup is unchanged when writing to a separate
output or with `--no-backup`, but editing in place without `--no-backup`
has already (re)written the backup file with a copy of the source before
the failure. -/
theorem C1_missing_header_failure (inPlace noBackup : Bool) (sheetName : String)
    (rowNumber : Nat) (sS eS : Int) (files : Files)
    (hmiss : ∀ ss sheetPath raw sheetRoot headerMap,
      load_shared_strings files.workbook = .ok ss →
      resolve_sheet_path files.workbook sheetName = .ok sheetPath →
      zfRead files.workbook sheetPath = .ok raw →
      fromstring raw = .ok sheetRoot →
      build_header_map sheetRoot ss = .ok headerMap →
      (pyFalsyStr (alookup headerMap "target start date")
        || pyFalsyStr (alookup headerMap "target end date")) = true) :
    ∃ e, runMain inPlace noBackup sheetName rowNumber sS eS files =
      (.error e,
        { workbook := files.workbook, output := files.output,
          backup := if inPlace && !noBackup then some files.workbook else files.backup }) := by
  suffices hp : ∃ e, processWorkbook files.workbook sheetName rowNumber sS eS = .error e by
    obtain ⟨e, he⟩ := hp
    exact ⟨e, runMain_of_processError inPlace noBackup sheetName rowNumber sS eS files e he⟩
  unfold processWorkbook
  rcases h1 : load_shared_strings files.workbook with e1 | ss
  · exact ⟨e1, rfl⟩
  dsimp only
  rcases h2 : load_styles files.workbook with e2 | stylesRoot
  · exact ⟨e2, rfl⟩
  dsimp only
  rcases h3 : ensure_date_style_index stylesRoot with e3 | dsi
  · exact ⟨e3, rfl⟩
  obtain ⟨dateStyleIdx, stylesRoot₁⟩ := dsi
  dsimp only
  rcases h4 : resolve_sheet_path files.workbook sheetName with e4 | sheetPath
  · exact ⟨e4, rfl⟩
  dsimp only
  rcases h5 : zfRead files.workbook sheetPath with e5 | sheetRaw
  · exact ⟨e5, rfl⟩
  dsimp only
  rcases h6 : fromstring sheetRaw with e6 | sheetRoot
  · exact ⟨e6, rfl⟩
  dsimp only
  rcases h7 : build_header_map sheetRoot ss with e7 | headerMap
  · exact ⟨e7, rfl⟩
  dsimp only
  have hfalsy := hmiss ss sheetPath sheetRaw sheetRoot headerMap h1 h4 h5 h6 h7
  obtain ⟨e8, he8⟩ := update_dates_missing_header sheetRoot headerMap rowNumber sS eS
    (some dateStyleIdx) hfalsy
  rw [he8]
  exact ⟨e8, rfl⟩

/-- Witness for C1 (amended) at the concrete missing-header archive, run
with an explicit output path (no backup is made, nothing changes). -/
theorem C1_witness :
    ∃ e, runMain false false "Sheet1" 2 45292 45306 filesNoEnd =
      (.error e, { workbook := zfNoEnd, output := none, backup := none }) := by
  refine C1_missing_header_failure false false "Sheet1" 2 45292 45306 filesNoEnd ?_
  intro ss sheetPath raw sheetRoot headerMap h1 h4 h5 h6 h7
  have h1' : load_shared_strings filesNoEnd.workbook = .ok [] := rfl
  have hss : ss = [] := Except.ok.inj (h1.symm.trans h1')
  subst hss
  have h4' : resolve_sheet_path filesNoEnd.workbook "Sheet1" =
      .ok "xl/worksheets/sheet1.xml" := rfl
  have hsp : sheetPath = "xl/worksheets/sheet1.xml" := Except.ok.inj (h4.symm.trans h4')
  subst hsp
  have h5' : zfRead filesNoEnd.workbook "xl/worksheets/sheet1.xml" =
      .ok (Member.xml sheetNoEnd) := rfl
  have hraw : raw = Member.xml sheetNoEnd := Except.ok.inj (h5.symm.trans h5')
  subst hraw
  have h6' : fromstring (Member.xml sheetNoEnd) = .ok sheetNoEnd := rfl
  have hsr : sheetRoot = sheetNoEnd := Except.ok.inj (h6.symm.trans h6')
  subst hsr
  have h7' : build_header_map sheetNoEnd [] = .ok [("target start date", "A")] := rfl
  have hhm : headerMap = [("target start date", "A")] := Except.ok.inj (h7.symm.trans h7')
  subst hhm
  decide

/-- Counterexample to claim C1 as stated: on a workbook whose header row
lacks "Target End Date", editing in place without the backup-suppression
flag, the run fails but the backup file has been created (it was absent,
afterwards it is present) — a file was modified before the failure. -/
theorem C1_counterexample :
    (runMain true false "Sheet1" 2 45292 45306 filesNoEnd).1.isOk = false ∧
    filesNoEnd.backup = none ∧
    (runMain true false "Sheet1" 2 45292 45306 filesNoEnd).2.backup = some zfNoEnd := by
  exact ⟨by rfl, rfl, by rfl⟩

/-- `ensure_num_fmt_id` only touches the `numFmts` child: a styles root
without a `cellXfs` child still has none afterwards. -/
theorem nf_preserves_no_cellXfs (s : Xml) (code : String) (fid : Int) (s1 : Xml)
    (h : ensure_num_fmt_id s code = .ok (fid, s1))
    (hnone : firstIdx (fun c => c.tag == mainTag "cellXfs") s.children = none) :
    firstIdx (fun c => c.tag == mainTag "cellXfs") s1.children = none := by
  have htagne : ((mainTag "numFmts" == mainTag "cellXfs") = false) := by decide
  rcases hfi : firstIdx (fun c => c.tag == mainTag "numFmts") s.children with _ | i
  · -- `numFmts` created and inserted at position 0; the allocation branch runs
    have heq : ensure_num_fmt_id s code =
        .ok ((164 : Int), s.withChildren
          ((Xml.elem (mainTag "numFmts") [("count", "1")]
            [Xml.elem (mainTag "numFmt") [("numFmtId", "164"), ("formatCode", code)] [] none]
            none) :: s.children)) := by
      unfold ensure_num_fmt_id
      rw [hfi]
      rfl
    rw [heq] at h
    have hs1 := congrArg Prod.snd (Except.ok.inj h)
    dsimp only at hs1
    rw [← hs1]
    simp only [Xml.children_withChildren, firstIdx, Xml.tag_elem]
    rw [if_neg (by simp [htagne]), hnone]
    rfl
  · -- `numFmts` already present at index `i`
    rcases firstIdx_some_get _ _ _ hfi with ⟨nf, hget, hp⟩
    have hnftag : nf.tag = mainTag "numFmts" := by simpa using hp
    have heq : ensure_num_fmt_id s code = numFmtCore s i nf code := by
      unfold ensure_num_fmt_id
      rw [hfi]
      dsimp only
      rw [hget]
      rfl
    rw [heq] at h
    simp only [numFmtCore] at h
    rcases hfind : (nf.findall (mainTag "numFmt")).find?
        (fun f => f.attr "formatCode" == some code) with _ | f <;> rw [hfind] at h <;>
      dsimp only at h
    · rcases hmm : exMapM (fun f => getOrErr (parseInt? ((f.attr "numFmtId").getD "0"))
          "ValueError: invalid literal for int") (nf.findall (mainTag "numFmt"))
          with e | ids <;> rw [hmm] at h <;> dsimp only at h
      · exact Except.noConfusion h
      · have hs1 := congrArg Prod.snd (Except.ok.inj h)
        dsimp only at hs1
        rw [← hs1]
        rw [firstIdx_eq_none_iff]
        intro a ha
        simp only [Xml.children_withChildren] at ha
        rcases List.mem_or_eq_of_mem_set ha with ha' | ha'
        · exact (firstIdx_eq_none_iff _ _).1 hnone a ha'
        · subst ha'
          simp only [Xml.attrSet, Xml.tag_elem, Xml.tag_withChildren]
          rw [hnftag]
          exact htagne
    · rcases hattr : f.attr "numFmtId" with _ | idStr <;> rw [hattr] at h <;> dsimp only at h
      · exact Except.noConfusion h
      · rcases hpi : parseInt? idStr with _ | fid' <;> rw [hpi] at h <;> dsimp only at h
        · exact Except.noConfusion h
        · have hs1 := congrArg Prod.snd (Except.ok.inj h)
          dsimp only at hs1
          rw [← hs1]
          exact hnone

/-- Claim C9: a style table is a hard prerequisite.  An archive without
`xl/styles.xml`, or one whose style root has no `cellXfs` child, makes the
run fail before the destination or the output is written; by contrast a
missing shared-strings member is tolerated and yields the empty table. -/
theorem C9_styles_prerequisite (files : Files) (inPlace noBackup : Bool)
    (sheetName : String) (rowNumber : Nat) (sS eS : Int) :
    (zfLookup files.workbook STYLES_PATH = none →
      ∃ e, runMain inPlace noBackup sheetName rowNumber sS eS files =
        (.error e,
          { workbook := files.workbook, output := files.output,
            backup := if inPlace && !noBackup then some files.workbook
              else files.backup })) ∧
    (∀ x, zfLookup files.workbook STYLES_PATH = some (Member.xml x) →
      firstIdx (fun c => c.tag == mainTag "cellXfs") x.children = none →
      ∃ e, runMain inPlace noBackup sheetName rowNumber sS eS files =
        (.error e,
          { workbook := files.workbook, output := files.output,
            backup := if inPlace && !noBackup then some files.workbook
              else files.backup })) ∧
    (zfLookup files.workbook "xl/sharedStrings.xml" = none →
      load_shared_strings files.workbook = .ok []) := by
  refine ⟨?_, ?_, ?_⟩
  · intro hnone
    have hstyles : load_styles files.workbook =
        .error "Workbook is missing xl/styles.xml, cannot set formats" := by
      unfold load_styles
      rw [hnone]
    have hproc : ∃ e, processWorkbook files.workbook sheetName rowNumber sS eS = .error e := by
      unfold processWorkbook
      rcases h1 : load_shared_strings files.workbook with e1 | ss <;> dsimp only
      · exact ⟨e1, rfl⟩
      · rw [hstyles]
        exact ⟨_, rfl⟩
    rcases hproc with ⟨e, he⟩
    exact ⟨e, runMain_of_processError inPlace noBackup sheetName rowNumber sS eS files e he⟩
  · intro x hsome hnoxfs
    have hstyles : load_styles files.workbook = .ok x := by
      unfold load_styles
      rw [hsome]
      rfl
    have hproc : ∃ e, processWorkbook files.workbook sheetName rowNumber sS eS = .error e := by
      unfold processWorkbook
      rcases h1 : load_shared_strings files.workbook with e1 | ss <;> dsimp only
      · exact ⟨e1, rfl⟩
      · rw [hstyles]
        dsimp only
        have hdsi : ∃ e, ensure_date_style_index x = .error e := by
          unfold ensure_date_style_index
          rcases h2 : ensure_num_fmt_id x TARGET_NUMBER_FORMAT with e2 | p <;> dsimp only
          · exact ⟨e2, rfl⟩
          · obtain ⟨fid, r1⟩ := p
            have hnone1 := nf_preserves_no_cellXfs x TARGET_NUMBER_FORMAT fid r1 h2 hnoxfs
            unfold ensure_cell_xf_index
            rw [hnone1]
            exact ⟨_, rfl⟩
        rcases hdsi with ⟨e, he⟩
        rw [he]
        exact ⟨e, rfl⟩
    rcases hproc with ⟨e, he⟩
    exact ⟨e, runMain_of_processError inPlace noBackup sheetName rowNumber sS eS files e he⟩
  · intro hnone
    unfold load_shared_strings
    rw [hnone]

/-- Witness for C9 at concrete archives: a workbook without `xl/styles.xml`
fails with all files untouched; one whose style root lacks `cellXfs` fails
likewise; a workbook without `xl/sharedStrings.xml` yields the empty
shared-string table. -/
theorem C9_witness :
    (∃ e, runMain false true "Sheet1" 2 0 0 ⟨[("xl/workbook.xml", .xml wbMin)], none, none⟩ =
      (.error e, ⟨[("xl/workbook.xml", .xml wbMin)], none, none⟩)) ∧
    (∃ e, runMain false true "Sheet1" 2 0 0
        ⟨[("xl/styles.xml", .xml (Xml.elem (mainTag "styleSheet") [] [] none))], none, none⟩ =
      (.error e,
        ⟨[("xl/styles.xml", .xml (Xml.elem (mainTag "styleSheet") [] [] none))], none, none⟩)) ∧
    load_shared_strings [("xl/workbook.xml", .xml wbMin)] = .ok [] := by
  refine ⟨?_, ?_, ?_⟩
  · exact (C9_styles_prerequisite ⟨[("xl/workbook.xml", .xml wbMin)], none, none⟩
      false true "Sheet1" 2 0 0).1 (by rfl)
  · exact (C9_styles_prerequisite
      ⟨[("xl/styles.xml", .xml (Xml.elem (mainTag "styleSheet") [] [] none))], none, none⟩
      false true "Sheet1" 2 0 0).2.1 (Xml.elem (mainTag "styleSheet") [] [] none)
      (by rfl) (by rfl)
  · exact (C9_styles_prerequisite ⟨[("xl/workbook.xml", .xml wbMin)], none, none⟩
      false true "Sheet1" 2 0 0).2.2 (by rfl)

theorem optOr_none_right {α : Type} (a : Option α) : optOr a none = a := by
  cases a <;> rfl

/-- The dict built by the header loop looks up like the reversed pair list:
the last binding for a key wins. -/
theorem headerFold_lookup (ss : List String) :
    ∀ (cells : List Xml) (m0 m ps : List (String × String)),
      headerFold ss cells m0 = .ok m → headerPairs ss cells = .ok ps →
      ∀ k, alookup m k = optOr (alookup ps.reverse k) (alookup m0 k) := by
  intro cells
  induction cells with
  | nil =>
    intro m0 m ps hf hp k
    simp only [headerFold] at hf
    simp only [headerPairs] at hp
    have hm : m0 = m := Except.ok.inj hf
    have hps : ([] : List (String × String)) = ps := Except.ok.inj hp
    subst hm
    subst hps
    simp
  | cons c rest ih =>
    intro m0 m ps hf hp k
    simp only [headerFold] at hf
    simp only [headerPairs] at hp
    rcases hrt : read_cell_text c ss with e | t? <;> rw [hrt] at hf hp
    · exact Except.noConfusion hf
    rcases t? with _ | t
    · exact Except.noConfusion hf
    dsimp only at hf hp
    by_cases hh : stripStr t = ""
    · rw [if_pos hh] at hf hp
      exact ih m0 m ps hf hp k
    · rw [if_neg hh] at hf hp
      rcases hcl : column_letter ((c.attr "r").getD "") with e | col <;> rw [hcl] at hf hp
      · exact Except.noConfusion hf
      dsimp only at hf hp
      rcases hps' : headerPairs ss rest with e | ps' <;> rw [hps'] at hp
      · exact Except.noConfusion hp
      have hps : (lowerStr (stripStr t), col) :: ps' = ps := Except.ok.inj hp
      subst hps
      have := ih (dictInsert m0 (lowerStr (stripStr t)) col) m ps' hf hps' k
      rw [this, alookup_dictInsert]
      rw [List.reverse_cons, alookup_append, optOr_assoc]
      congr 1
      by_cases hk : lowerStr (stripStr t) = k
      · simp [alookup_cons, hk]
      · simp [alookup_cons, hk]

/-- Claim C6: the header map is case-insensitive and keeps the last
duplicate.  In general the built dict looks up exactly like the reversed
list of (lower-cased stripped header text, column) pairs of the non-empty
header cells (so lower-casing happens, empty cells are skipped, and the
later of two equal keys wins); concretely, "Target Start Date" and
"target start date" resolve to the same column, an empty header cell is
skipped, and of two case-duplicate headers the later column is kept. -/
theorem C6_header_map_semantics :
    (∀ (ss : List String) (cells : List Xml) (m ps : List (String × String)),
      headerFold ss cells [] = .ok m → headerPairs ss cells = .ok ps →
      ∀ k, alookup m k = alookup ps.reverse k) ∧
    (build_header_map (hdrSheet [cellInline "A1" "Target Start Date"]) [] =
        .ok [("target start date", "A")] ∧
      build_header_map (hdrSheet [cellInline "A1" "target start date"]) [] =
        .ok [("target start date", "A")]) ∧
    (build_header_map (hdrSheet [cellInline "A1" "", cellInline "B1" "X"]) [] =
        .ok [("x", "B")]) ∧
    (∃ m, build_header_map (hdrSheet [cellInline "A1" "Dup", cellInline "B1" "DUP"]) [] =
        .ok m ∧ alookup m "dup" = some "B") := by
  refine ⟨?_, ⟨by rfl, by rfl⟩, by rfl, ⟨[("dup", "B")], by rfl, by rfl⟩⟩
  intro ss cells m ps hf hp k
  have := headerFold_lookup ss cells [] m ps hf hp k
  rw [this, alookup_nil, optOr_none_right]

/-- Witness for C6: the general lookup characterization applied to the
concrete duplicate-header row. -/
theorem C6_witness :
    ∃ m ps, headerFold [] [cellInline "A1" "Dup", cellInline "B1" "DUP"] [] = .ok m ∧
      headerPairs [] [cellInline "A1" "Dup", cellInline "B1" "DUP"] = .ok ps ∧
      alookup m "dup" = alookup ps.reverse "dup" := by
  refine ⟨[("dup", "B")], [("dup", "A"), ("dup", "B")], by rfl, by rfl, ?_⟩
  exact C6_header_map_semantics.1 [] [cellInline "A1" "Dup", cellInline "B1" "DUP"]
    [("dup", "B")] [("dup", "A"), ("dup", "B")] (by rfl) (by rfl) "dup"

/-- Claim C10: header text is stripped of surrounding whitespace before the
empty-check and the lower-casing: a cell whose text strips to empty is
skipped (it leaves the fold unchanged wherever it sits in the row), and
"  Target Start Date  " resolves to the same map as "target start date". -/
theorem C10_header_strip :
    (∀ (ss : List String) (pre : List Xml) (c : Xml) (post : List Xml)
        (m0 : List (String × String)) (t : String),
      read_cell_text c ss = .ok (some t) → stripStr t = "" →
      headerFold ss (pre ++ c :: post) m0 = headerFold ss (pre ++ post) m0) ∧
    (build_header_map (hdrSheet [cellInline "A1" "  Target Start Date  "]) [] =
        .ok [("target start date", "A")] ∧
      build_header_map (hdrSheet [cellInline "A1" "target start date"]) [] =
        .ok [("target start date", "A")]) ∧
    build_header_map (hdrSheet [cellInline "A1" "   "]) [] = .ok [] := by
  refine ⟨?_, ⟨by rfl, by rfl⟩, by rfl⟩
  intro ss pre c post m0 t hrt hstrip
  induction pre generalizing m0 with
  | nil =>
    simp only [List.nil_append, headerFold]
    rw [hrt]
    dsimp only
    rw [if_pos hstrip]
  | cons p pre' ih =>
    simp only [List.cons_append, headerFold]
    rcases hrt' : read_cell_text p ss with e | t?
    · rfl
    · rcases t? with _ | t'
      · rfl
      · dsimp only
        by_cases hh : stripStr t' = ""
        · rw [if_pos hh, if_pos hh]
          exact ih m0
        · rw [if_neg hh, if_neg hh]
          rcases hcl : column_letter ((p.attr "r").getD "") with e | col
          · rfl
          · dsimp only
            exact ih (dictInsert m0 (lowerStr (stripStr t')) col)

/-- Witness for C10: the skip property applied with a concrete
whitespace-only cell between two real headers. -/
theorem C10_witness :
    headerFold [] [cellInline "A1" "X", cellInline "B1" "   ", cellInline "C1" "Y"] [] =
      headerFold [] [cellInline "A1" "X", cellInline "C1" "Y"] [] :=
  C10_header_strip.1 [] [cellInline "A1" "X"] (cellInline "B1" "   ") [cellInline "C1" "Y"]
    [] "   " (by rfl) (by rfl)

theorem cellSortKey_ok (el : Xml) (k : Nat) (h : cellSortKey el = .ok k) :
    k = colKeyTotal el := by
  unfold cellSortKey at h
  rcases hattr : el.attr "r" with _ | r <;> rw [hattr] at h
  · exact Except.noConfusion h
  · unfold column_letter at h
    dsimp only at h
    by_cases hl : letterPartOf r = ""
    · rw [if_pos hl] at h
      exact Except.noConfusion h
    · rw [if_neg hl] at h
      dsimp only at h
      have hk := Except.ok.inj h
      unfold colKeyTotal
      rw [hattr]
      exact hk.symm

theorem exMapM_cellKeys (cs : List Xml) :
    ∀ (keyed : List (Nat × Xml)),
      exMapM (fun el =>
        match cellSortKey el with
        | .error e => .error e
        | .ok k => .ok (k, el)) cs = .ok keyed →
      keyed.map (fun p => p.2) = cs ∧ ∀ p ∈ keyed, p.1 = colKeyTotal p.2 := by
  induction cs with
  | nil =>
    intro keyed h
    simp only [exMapM] at h
    have : ([] : List (Nat × Xml)) = keyed := Except.ok.inj h
    subst this
    exact ⟨rfl, by intro p hp; simp at hp⟩
  | cons a rest ih =>
    intro keyed h
    simp only [exMapM] at h
    rcases hk : cellSortKey a with e | k <;> rw [hk] at h
    · exact Except.noConfusion h
    · dsimp only at h
      rcases hrest : exMapM (fun el =>
          match cellSortKey el with
          | .error e => .error e
          | .ok k => .ok (k, el)) rest with e | bs <;> rw [hrest] at h
      · exact Except.noConfusion h
      · dsimp only at h
        have hkeyed : (k, a) :: bs = keyed := Except.ok.inj h
        subst hkeyed
        rcases ih bs hrest with ⟨hmap, hall⟩
        refine ⟨by simp [hmap], ?_⟩
        intro p hp
        rcases List.mem_cons.1 hp with rfl | hp'
        · exact cellSortKey_ok a k hk
        · exact hall p hp'

theorem insertionSort_cells_sorted (keyed : List (Nat × Xml))
    (hkeys : ∀ p ∈ keyed, p.1 = colKeyTotal p.2) :
    List.Sorted (· ≤ ·)
      (((List.insertionSort keyLe keyed).map (fun p => p.2)).map colKeyTotal) := by
  have hperm := List.perm_insertionSort keyLe keyed
  have hsorted := List.sorted_insertionSort keyLe keyed
  have hkeys' : ∀ p ∈ List.insertionSort keyLe keyed, p.1 = colKeyTotal p.2 :=
    fun p hp => hkeys p (hperm.mem_iff.1 hp)
  rw [List.map_map]
  have hmc : (List.insertionSort keyLe keyed).map (colKeyTotal ∘ (fun p => p.2)) =
      (List.insertionSort keyLe keyed).map (fun p => p.1) :=
    List.map_congr_left (fun p hp => (hkeys' p hp).symm)
  rw [hmc]
  exact List.pairwise_map.2 hsorted

/-- Claim C5 (amended): after an insertion by `find_or_create_cell` the
row's children are sorted in non-decreasing column-index order, and the
order is strictly increasing whenever the column indices are pairwise
distinct (as they are when the cells' references all carry the row's own
number and are distinct). -/
theorem C5_cells_sorted_after_insert (row : Xml) (column : String) (rowNumber : Nat)
    (row' : Xml)
    (hok : find_or_create_cell row column rowNumber = .ok row')
    (habsent : (row.findall (mainTag "c")).find?
      (fun c => c.attr "r" == some (column ++ natToStr rowNumber)) = none) :
    List.Sorted (· ≤ ·) (row'.children.map colKeyTotal) ∧
    ((row'.children.map colKeyTotal).Nodup →
      List.Sorted (· < ·) (row'.children.map colKeyTotal)) := by
  unfold find_or_create_cell at hok
  dsimp only at hok
  rw [habsent] at hok
  dsimp only at hok
  rcases hmm : exMapM (fun el =>
      match cellSortKey el with
      | .error e => .error e
      | .ok k => .ok (k, el))
      (row.children ++ [Xml.elem (mainTag "c") [("r", column ++ natToStr rowNumber)] [] none])
      with e | keyed <;> rw [hmm] at hok
  · exact Except.noConfusion hok
  · dsimp only at hok
    have hrow := Except.ok.inj hok
    rcases exMapM_cellKeys _ keyed hmm with ⟨_, hkeys⟩
    have hchildren : row'.children = (List.insertionSort keyLe keyed).map (fun p => p.2) := by
      rw [← hrow]
      rfl
    rw [hchildren]
    refine ⟨insertionSort_cells_sorted keyed hkeys, ?_⟩
    intro hnodup
    exact List.Sorted.lt_of_le (insertionSort_cells_sorted keyed hkeys) hnodup

/-- Counterexample to claim C5 as stated: the row's cells have distinct
references, the inserted reference `B1` was absent, yet after the insertion
the column indices read `[1, 1, 2]`, which is not strictly increasing —
the sort is by column only, so distinct references with equal columns tie. -/
theorem C5_counterexample :
    (rowAA.children.map (fun c => c.attr "r")).Nodup ∧
    (rowAA.findall (mainTag "c")).find?
      (fun c => c.attr "r" == some ("B" ++ natToStr 1)) = none ∧
    Except.map (fun r => r.children.map colKeyTotal) (find_or_create_cell rowAA "B" 1) =
      .ok [1, 1, 2] ∧
    ¬ List.Sorted (· < ·) [1, 1, 2] := by
  refine ⟨by decide, by rfl, by rfl, by decide⟩

/-- Witness for C5 (amended): inserting `B1` into a row holding `A1` and
`C1` yields strictly increasing columns `[1, 2, 3]`. -/
theorem C5_witness :
    ∃ row', find_or_create_cell
        (Xml.elem (mainTag "row") [("r", "1")] [cellRefOnly "A1", cellRefOnly "C1"] none)
        "B" 1 = .ok row' ∧
      List.Sorted (· ≤ ·) (row'.children.map colKeyTotal) ∧
      List.Sorted (· < ·) (row'.children.map colKeyTotal) := by
  have h := C5_cells_sorted_after_insert
    (Xml.elem (mainTag "row") [("r", "1")] [cellRefOnly "A1", cellRefOnly "C1"] none) "B" 1
    (Xml.elem (mainTag "row") [("r", "1")]
      [cellRefOnly "A1", cellRefOnly "B1", cellRefOnly "C1"] none)
    (by rfl) (by rfl)
  refine ⟨Xml.elem (mainTag "row") [("r", "1")]
    [cellRefOnly "A1", cellRefOnly "B1", cellRefOnly "C1"] none, by rfl, h.1, h.2 (by decide)⟩

theorem get?_set_self_of_lt {α : Type} (l : List α) (i : Nat) (a : α) (h : i < l.length) :
    (l.set i a).get? i = some a := by
  rw [List.get?_eq_getElem?, List.getElem?_set_self h]

theorem le_foldl_max (l : List Int) : ∀ a : Int, a ≤ l.foldl max a := by
  induction l with
  | nil => intro a; exact le_refl a
  | cons x t ih => intro a; exact le_trans (le_max_left a x) (ih (max a x))

theorem mem_le_foldl_max (l : List Int) : ∀ (a x : Int), x ∈ l → x ≤ l.foldl max a := by
  induction l with
  | nil => intro a x hx; simp at hx
  | cons y t ih =>
    intro a x hx
    rcases List.mem_cons.1 hx with rfl | hx'
    · exact le_trans (le_max_right a x) (le_foldl_max t (max a x))
    · exact ih (max a y) x hx'

theorem nfFound_run (s : Xml) (code : String) (fid : Int) (h : nfFound s code fid) :
    ensure_num_fmt_id s code = .ok (fid, s) := by
  obtain ⟨i, nf, f, idStr, hfi, hget, hfind, hattr, hparse⟩ := h
  unfold ensure_num_fmt_id
  rw [hfi]
  dsimp only
  rw [hget]
  show numFmtCore s i nf code = .ok (fid, s)
  simp only [numFmtCore]
  rw [hfind]
  dsimp only
  rw [hattr]
  dsimp only
  rw [hparse]

theorem newNumFmt_matches (code : String) (newId : Int) :
    ((newNumFmt code newId).attr "formatCode" == some code) = true := by
  have h : (newNumFmt code newId).attr "formatCode" = some code := rfl
  rw [h]
  exact beq_self_eq_true (some code)

/-- The allocation branch of `ensure_num_fmt_id`, fully characterized:
no entry matches, every id parses, so the result is `max(163, ids) + 1`
and the matching new entry is appended at the end of the entry list. -/
theorem nf_alloc (s : Xml) (code : String) (ids : List Int)
    (hfind : (numFmtEntries s).find? (fun g => g.attr "formatCode" == some code) = none)
    (hmm : exMapM (fun f => getOrErr (parseInt? ((f.attr "numFmtId").getD "0"))
      "ValueError: invalid literal for int") (numFmtEntries s) = .ok ids) :
    ∃ s', ensure_num_fmt_id s code = .ok (ids.foldl max (163 : Int) + 1, s') ∧
      numFmtEntries s' = numFmtEntries s ++ [newNumFmt code (ids.foldl max (163 : Int) + 1)] := by
  rcases hfi : firstIdx (fun c => c.tag == mainTag "numFmts") s.children with _ | i
  · -- no `numFmts` container: it is created, the list of ids is empty
    have hentries : numFmtEntries s = [] := by
      unfold numFmtEntries
      rw [hfi]
    rw [hentries] at hmm
    have hids : ([] : List Int) = ids := Except.ok.inj hmm
    subst hids
    refine ⟨s.withChildren
      ((Xml.elem (mainTag "numFmts") [("count", "1")] [newNumFmt code 164] none) :: s.children),
      ?_, ?_⟩
    · unfold ensure_num_fmt_id
      rw [hfi]
      rfl
    · rw [hentries]
      unfold numFmtEntries
      have hfi' : firstIdx (fun c => c.tag == mainTag "numFmts")
          (s.withChildren ((Xml.elem (mainTag "numFmts") [("count", "1")]
            [newNumFmt code 164] none) :: s.children)).children = some 0 := by
        simp only [Xml.children_withChildren, firstIdx, Xml.tag_elem]
        rw [if_pos (beq_self_eq_true _)]
      rw [hfi']
      rfl
  · rcases firstIdx_some_get _ _ _ hfi with ⟨nf, hget, hp⟩
    have hentries : numFmtEntries s = nf.findall (mainTag "numFmt") := by
      unfold numFmtEntries
      rw [hfi]
      dsimp only
      rw [hget]
      rfl
    rw [hentries] at hmm hfind
    have hlt : i < s.children.length := firstIdx_lt_length _ _ _ hfi
    set newId := ids.foldl max (163 : Int) + 1 with hnewId
    set nf₁ := nf.withChildren (nf.children ++ [newNumFmt code newId]) with hnf₁
    set nf₂ := nf₁.attrSet "count" (natToStr ((nf₁.findall (mainTag "numFmt")).length))
      with hnf₂
    refine ⟨s.withChildren (s.children.set i nf₂), ?_, ?_⟩
    · unfold ensure_num_fmt_id
      rw [hfi]
      dsimp only
      rw [hget]
      show numFmtCore s i nf code = _
      simp only [numFmtCore]
      rw [hfind]
      dsimp only
      rw [hmm]
      rfl
    · have htag₂ : nf₂.tag = nf.tag := rfl
      have hptag : (nf.tag == mainTag "numFmts") = true := hp
      have hfi' : firstIdx (fun c => c.tag == mainTag "numFmts")
          (s.children.set i nf₂) = some i :=
        firstIdx_set_preserved _ _ _ _ hfi (by rw [htag₂]; exact hptag)
      rw [hentries]
      have hL : numFmtEntries (s.withChildren (s.children.set i nf₂)) =
          nf₂.findall (mainTag "numFmt") := by
        unfold numFmtEntries
        simp only [Xml.children_withChildren]
        rw [hfi']
        dsimp only
        rw [get?_set_self_of_lt _ _ _ hlt]
        rfl
      rw [hL]
      have hch : nf₂.children = nf.children ++ [newNumFmt code newId] := rfl
      unfold Xml.findall
      rw [hch, List.filter_append]
      congr 1

/-- Claim C7: numeric-format resolution reuses before allocating.  With a
matching entry (the first match having a parseable id) the existing id is
returned and the styles root is unchanged; with no matching entry the next
identifier above the reserved threshold 163 and above every existing id is
allocated and a `numFmt` entry with that id and the target code is
appended. -/
theorem C7_num_fmt_reuse_or_alloc (s : Xml) (code : String) :
    (∀ i nf f idStr fid,
      firstIdx (fun c => c.tag == mainTag "numFmts") s.children = some i →
      s.children.get? i = some nf →
      (nf.findall (mainTag "numFmt")).find? (fun g => g.attr "formatCode" == some code) =
        some f →
      f.attr "numFmtId" = some idStr → parseInt? idStr = some fid →
      ensure_num_fmt_id s code = .ok (fid, s)) ∧
    (∀ ids,
      (numFmtEntries s).find? (fun g => g.attr "formatCode" == some code) = none →
      exMapM (fun f => getOrErr (parseInt? ((f.attr "numFmtId").getD "0"))
        "ValueError: invalid literal for int") (numFmtEntries s) = .ok ids →
      ∃ s', ensure_num_fmt_id s code = .ok (ids.foldl max (163 : Int) + 1, s') ∧
        163 < ids.foldl max (163 : Int) + 1 ∧
        (∀ id ∈ ids, id < ids.foldl max (163 : Int) + 1) ∧
        numFmtEntries s' = numFmtEntries s ++
          [newNumFmt code (ids.foldl max (163 : Int) + 1)]) := by
  constructor
  · intro i nf f idStr fid hfi hget hfind hattr hparse
    exact nfFound_run s code fid ⟨i, nf, f, idStr, hfi, hget, hfind, hattr, hparse⟩
  · intro ids hfind hmm
    rcases nf_alloc s code ids hfind hmm with ⟨s', hrun, hentries⟩
    refine ⟨s', hrun, ?_, ?_, hentries⟩
    · have := le_foldl_max ids 163
      omega
    · intro id hid
      have := mem_le_foldl_max ids 163 id hid
      omega

/-- Witness for C7: on `stylesOneFmt` the code "X" is reused as id 200 with
the root unchanged, and the fresh code "Y" is allocated id 201
(= max(163, 200) + 1 > 163, larger than the existing id). -/
theorem C7_witness :
    ensure_num_fmt_id stylesOneFmt "X" = .ok (200, stylesOneFmt) ∧
    (∃ s', ensure_num_fmt_id stylesOneFmt "Y" = .ok (201, s') ∧
      numFmtEntries s' = numFmtEntries stylesOneFmt ++ [newNumFmt "Y" 201]) := by
  constructor
  · exact (C7_num_fmt_reuse_or_alloc stylesOneFmt "X").1 0
      (Xml.elem (mainTag "numFmts") [("count", "1")]
        [Xml.elem (mainTag "numFmt") [("numFmtId", "200"), ("formatCode", "X")] [] none] none)
      (Xml.elem (mainTag "numFmt") [("numFmtId", "200"), ("formatCode", "X")] [] none)
      "200" 200 (by rfl) (by rfl) (by rfl) (by rfl) (by rfl)
  · have h := (C7_num_fmt_reuse_or_alloc stylesOneFmt "Y").2 [200] (by rfl) (by rfl)
    rcases h with ⟨s', hrun, _, _, hentries⟩
    exact ⟨s', hrun, hentries⟩

theorem findall_append_child (nf x : Xml) (t countV : String)
    (hx : (x.tag == t) = true) :
    ((nf.withChildren (nf.children ++ [x])).attrSet "count" countV).findall t =
      nf.findall t ++ [x] := by
  unfold Xml.findall
  have hch : ((nf.withChildren (nf.children ++ [x])).attrSet "count" countV).children =
      nf.children ++ [x] := rfl
  rw [hch, List.filter_append]
  congr 1
  simp [List.filter_cons, hx]

/-- `ensure_num_fmt_id` always leaves behind (or finds) a first matching
entry whose id parses back to the returned id. -/
theorem nf_ok_found (s : Xml) (code : String) (fid : Int) (s1 : Xml)
    (h : ensure_num_fmt_id s code = .ok (fid, s1)) : nfFound s1 code fid := by
  rcases hfi : firstIdx (fun c => c.tag == mainTag "numFmts") s.children with _ | i
  · -- container created, entry allocated with id 164
    have heq : ensure_num_fmt_id s code =
        .ok ((164 : Int), s.withChildren
          ((Xml.elem (mainTag "numFmts") [("count", "1")] [newNumFmt code 164] none)
            :: s.children)) := by
      unfold ensure_num_fmt_id
      rw [hfi]
      rfl
    rw [heq] at h
    have hpair := Except.ok.inj h
    have hfid : (164 : Int) = fid := congrArg Prod.fst hpair
    have hs1 := congrArg Prod.snd hpair
    dsimp only at hs1
    subst hfid
    rw [← hs1]
    refine ⟨0, Xml.elem (mainTag "numFmts") [("count", "1")] [newNumFmt code 164] none,
      newNumFmt code 164, intToStr 164, ?_, rfl, ?_, rfl, parseInt?_intToStr 164⟩
    · simp only [Xml.children_withChildren, firstIdx, Xml.tag_elem]
      rw [if_pos (beq_self_eq_true _)]
    · have hfa : (Xml.elem (mainTag "numFmts") [("count", "1")] [newNumFmt code 164]
          none).findall (mainTag "numFmt") = [newNumFmt code 164] := rfl
      rw [hfa]
      exact List.find?_cons_of_pos _ (newNumFmt_matches code 164)
  · rcases firstIdx_some_get _ _ _ hfi with ⟨nf, hget, hp⟩
    have heq : ensure_num_fmt_id s code = numFmtCore s i nf code := by
      unfold ensure_num_fmt_id
      rw [hfi]
      dsimp only
      rw [hget]
      rfl
    rw [heq] at h
    simp only [numFmtCore] at h
    rcases hfind : (nf.findall (mainTag "numFmt")).find?
        (fun g => g.attr "formatCode" == some code) with _ | f <;> rw [hfind] at h <;>
      dsimp only at h
    · -- allocation branch
      rcases hmm : exMapM (fun f => getOrErr (parseInt? ((f.attr "numFmtId").getD "0"))
          "ValueError: invalid literal for int") (nf.findall (mainTag "numFmt"))
          with e | ids <;> rw [hmm] at h <;> dsimp only at h
      · exact Except.noConfusion h
      · have hpair := Except.ok.inj h
        have hfid := congrArg Prod.fst hpair
        have hs1 := congrArg Prod.snd hpair
        dsimp only at hfid hs1
        rw [← hs1, ← hfid]
        have hlt : i < s.children.length := firstIdx_lt_length _ _ _ hfi
        refine ⟨i,
          (nf.withChildren (nf.children ++
            [newNumFmt code (ids.foldl max (163 : Int) + 1)])).attrSet "count"
            (natToStr (((nf.withChildren (nf.children ++
              [newNumFmt code (ids.foldl max (163 : Int) + 1)])).findall
                (mainTag "numFmt")).length)),
          newNumFmt code (ids.foldl max (163 : Int) + 1),
          intToStr (ids.foldl max (163 : Int) + 1),
          ?_, ?_, ?_, rfl, parseInt?_intToStr _⟩
        · simp only [Xml.children_withChildren]
          exact firstIdx_set_preserved _ _ _ _ hfi hp
        · simp only [Xml.children_withChildren]
          exact get?_set_self_of_lt _ _ _ hlt
        · rw [findall_append_child nf (newNumFmt code (ids.foldl max (163 : Int) + 1))
            (mainTag "numFmt") _ (by rfl)]
          rw [List.find?_append, hfind, Option.none_or]
          exact List.find?_cons_of_pos _ (newNumFmt_matches code _)
    · -- reuse branch
      rcases hattr : f.attr "numFmtId" with _ | idStr <;> rw [hattr] at h <;> dsimp only at h
      · exact Except.noConfusion h
      · rcases hpi : parseInt? idStr with _ | fid' <;> rw [hpi] at h <;> dsimp only at h
        · exact Except.noConfusion h
        · have hpair := Except.ok.inj h
          have hfid : fid' = fid := congrArg Prod.fst hpair
          have hs1 : s = s1 := congrArg Prod.snd hpair
          rw [← hs1]
          exact ⟨i, nf, f, idStr, hfi, hget, hfind, hattr, hfid ▸ hpi⟩

theorem xfFound_run (s : Xml) (fid : Int) (xi : Nat) (h : xfFound s fid xi) :
    ensure_cell_xf_index s fid = .ok (xi, s) := by
  obtain ⟨j, cx, hfj, hget, hfx⟩ := h
  unfold ensure_cell_xf_index
  rw [hfj]
  dsimp only
  rw [hget]
  show (match firstIdx (xfPred fid) (cx.findall (mainTag "xf")) with
    | some idx => Except.ok (idx, s)
    | none => _) = Except.ok (xi, s)
  rw [hfx]

theorem findall_withChildren_append (nf x : Xml) (t : String) (hx : (x.tag == t) = true) :
    (nf.withChildren (nf.children ++ [x])).findall t = nf.findall t ++ [x] := by
  unfold Xml.findall
  have hch : (nf.withChildren (nf.children ++ [x])).children = nf.children ++ [x] := rfl
  rw [hch, List.filter_append]
  congr 1
  simp [List.filter_cons, hx]

theorem xf_ok_shape (s : Xml) (fid : Int) (xi : Nat) (s2 : Xml)
    (h : ensure_cell_xf_index s fid = .ok (xi, s2)) :
    xfFound s2 fid xi ∧
    (s2 = s ∨ ∃ j cx₂, cx₂.tag = mainTag "cellXfs" ∧
      firstIdx (fun c => c.tag == mainTag "cellXfs") s.children = some j ∧
      s2 = s.withChildren (s.children.set j cx₂)) := by
  unfold ensure_cell_xf_index at h
  rcases hfj : firstIdx (fun c => c.tag == mainTag "cellXfs") s.children with _ | j <;>
    rw [hfj] at h <;> dsimp only at h
  · exact Except.noConfusion h
  rcases firstIdx_some_get _ _ _ hfj with ⟨cx, hget, hpcx⟩
  have hgd : (s.children.get? j).getD (Xml.elem (mainTag "cellXfs") [] [] none) = cx := by
    rw [hget]
    rfl
  rw [hgd] at h
  rcases hfx : firstIdx (xfPred fid) (cx.findall (mainTag "xf")) with _ | idx <;>
    rw [hfx] at h <;> dsimp only at h
  · -- append branch
    have hpair := Except.ok.inj h
    have hxi := congrArg Prod.fst hpair
    have hs2 := congrArg Prod.snd hpair
    dsimp only at hxi hs2
    set baseAttrs := (match (cx.findall (mainTag "xf")).head? with
      | some x0 => x0.attrs
      | none => defaultXfAttrs) with hbase
    set attrs₁ := dictInsert (dictInsert baseAttrs "numFmtId" (intToStr fid))
      "applyNumberFormat" "1" with hattrs₁
    set newXf := Xml.elem (mainTag "xf") attrs₁ [] none with hnewXf
    set cx₁ := cx.withChildren (cx.children ++ [newXf]) with hcx₁
    set cx₂ := cx₁.attrSet "count" (natToStr ((cx₁.findall (mainTag "xf")).length)) with hcx₂
    have hnewPred : xfPred fid newXf = true := by
      unfold xfPred
      have h1 : newXf.attr "numFmtId" = some (intToStr fid) := by
        show alookup attrs₁ "numFmtId" = some (intToStr fid)
        rw [hattrs₁, alookup_dictInsert]
        rw [if_neg (by decide)]
        rw [alookup_dictInsert, if_pos rfl]
      have h2 : newXf.attr "applyNumberFormat" = some "1" := by
        show alookup attrs₁ "applyNumberFormat" = some "1"
        rw [hattrs₁, alookup_dictInsert, if_pos rfl]
      rw [h1, h2]
      rw [beq_self_eq_true, beq_self_eq_true]
      rfl
    have hlt : j < s.children.length := firstIdx_lt_length _ _ _ hfj
    have htagXf : (newXf.tag == mainTag "xf") = true := beq_self_eq_true _
    have hfa2 : cx₂.findall (mainTag "xf") = cx.findall (mainTag "xf") ++ [newXf] :=
      findall_append_child cx newXf (mainTag "xf") _ htagXf
    have hfa1 : cx₁.findall (mainTag "xf") = cx.findall (mainTag "xf") ++ [newXf] :=
      findall_withChildren_append cx newXf (mainTag "xf") htagXf
    have hxi' : xi = (cx.findall (mainTag "xf")).length := by
      rw [← hxi, hfa1]
      simp
    constructor
    · rw [← hs2]
      refine ⟨j, cx₂, ?_, ?_, ?_⟩
      · simp only [Xml.children_withChildren]
        refine firstIdx_set_preserved _ _ _ _ hfj ?_
        show (cx₂.tag == mainTag "cellXfs") = true
        exact hpcx
      · simp only [Xml.children_withChildren]
        exact get?_set_self_of_lt _ _ _ hlt
      · rw [hfa2]
        rw [firstIdx_append_singleton (xfPred fid) _ newXf hfx hnewPred]
        rw [hxi']
    · refine Or.inr ⟨j, cx₂, ?_, hfj, hs2.symm⟩
      have hcxtag : cx.tag = mainTag "cellXfs" := by simpa using hpcx
      exact hcxtag
  · -- reuse branch
    have hpair := Except.ok.inj h
    have hxi : idx = xi := congrArg Prod.fst hpair
    have hs2 : s = s2 := congrArg Prod.snd hpair
    constructor
    · rw [← hs2]
      exact ⟨j, cx, hfj, hget, hxi ▸ hfx⟩
    · exact Or.inl hs2.symm

/-- Replacing a `cellXfs` child (what `ensure_cell_xf_index` does) does not
disturb the found `numFmts` entry. -/
theorem nfFound_set_cellXfs (s1 : Xml) (code : String) (fid : Int) (j : Nat) (cx₂ : Xml)
    (hnf : nfFound s1 code fid)
    (hfj : firstIdx (fun c => c.tag == mainTag "cellXfs") s1.children = some j)
    (hcx₂ : cx₂.tag = mainTag "cellXfs") :
    nfFound (s1.withChildren (s1.children.set j cx₂)) code fid := by
  obtain ⟨i, nf, f, idStr, hfi, hget, hfind, hattr, hparse⟩ := hnf
  rcases firstIdx_some_get _ _ _ hfi with ⟨a, hga, hpa⟩
  have ha : a = nf := by
    rw [hga] at hget
    exact Option.some.inj hget
  subst ha
  rcases firstIdx_some_get _ _ _ hfj with ⟨cx, hgc, hpc⟩
  have hne : j ≠ i := by
    intro hji
    subst hji
    rw [hga] at hgc
    have hcnf : cx = a := (Option.some.inj hgc).symm
    subst hcnf
    have h1 : cx.tag = mainTag "numFmts" := by simpa using hpa
    have h2 : cx.tag = mainTag "cellXfs" := by simpa using hpc
    rw [h1] at h2
    exact absurd h2 (by decide)
  refine ⟨i, a, f, idStr, ?_, ?_, hfind, hattr, hparse⟩
  · simp only [Xml.children_withChildren]
    refine firstIdx_set_other _ _ _ _ _ hfi hne ?_
    rw [hcx₂]
    decide
  · simp only [Xml.children_withChildren]
    rw [List.get?_eq_getElem?, List.getElem?_set_ne hne, ← List.get?_eq_getElem?]
    exact hget

/-- Claim C4: style resolution is idempotent.  After a first run of
`ensure_date_style_index` (= `ensure_num_fmt_id` for the target format
followed by `ensure_cell_xf_index`), a second run on the resulting style
table returns the same numeric-format id and the same cell-format index
and leaves the table exactly as it was — no numFmt or xf entries are
added. -/
theorem C4_style_idempotent (s : Xml) (fid : Int) (s1 : Xml) (xi : Nat) (s2 : Xml)
    (h1 : ensure_num_fmt_id s TARGET_NUMBER_FORMAT = .ok (fid, s1))
    (h2 : ensure_cell_xf_index s1 fid = .ok (xi, s2)) :
    ensure_date_style_index s = .ok (xi, s2) ∧
    ensure_date_style_index s2 = .ok (xi, s2) ∧
    ensure_num_fmt_id s2 TARGET_NUMBER_FORMAT = .ok (fid, s2) ∧
    ensure_cell_xf_index s2 fid = .ok (xi, s2) := by
  have hnf1 : nfFound s1 TARGET_NUMBER_FORMAT fid := nf_ok_found s _ fid s1 h1
  rcases xf_ok_shape s1 fid xi s2 h2 with ⟨hxf2, hshape⟩
  have hnf2 : nfFound s2 TARGET_NUMBER_FORMAT fid := by
    rcases hshape with rfl | ⟨j, cx₂, htag₂, hfj, hs2⟩
    · exact hnf1
    · rw [hs2]
      exact nfFound_set_cellXfs s1 _ fid j cx₂ hnf1 hfj htag₂
  have hNF2 := nfFound_run s2 _ fid hnf2
  have hXF2 := xfFound_run s2 fid xi hxf2
  refine ⟨?_, ?_, hNF2, hXF2⟩
  · unfold ensure_date_style_index
    rw [h1]
    dsimp only
    exact h2
  · unfold ensure_date_style_index
    rw [hNF2]
    dsimp only
    exact hXF2

/-- Witness for C4 at the minimal styles table: the first run allocates
id 164 and cell-format index 1; a second run returns the same values and
changes nothing. -/
theorem C4_witness :
    ensure_num_fmt_id stylesMin TARGET_NUMBER_FORMAT = .ok (164, s1Run) ∧
    ensure_cell_xf_index s1Run 164 = .ok (1, s2Run) ∧
    ensure_date_style_index s2Run = .ok (1, s2Run) ∧
    ensure_num_fmt_id s2Run TARGET_NUMBER_FORMAT = .ok (164, s2Run) ∧
    ensure_cell_xf_index s2Run 164 = .ok (1, s2Run) := by
  have h := C4_style_idempotent stylesMin 164 s1Run 1 s2Run (by rfl) (by rfl)
  exact ⟨by rfl, by rfl, h.2.1, h.2.2.1, h.2.2.2⟩

end ExcelDateUpdater
